import Mathlib

/-!
Verification development for the pmlbeta alpha/beta-peptide fabrication package.

The Python package manipulates molecular models held by the PyMOL host through
a small set of primitives (atom/bond lists, selections, counting, rigid fits,
dihedral edits).  This file gives a shallow embedding of the package's own
logic over an explicit molecular-model datatype:

* atoms carry a name, a residue name, a residue number and a rational 3D
  coordinate; bonds are index pairs into the atom list (`Model`);
* PyMOL selection counting (`count_atoms` over `name`/`resi`/`neighbor`
  selections) becomes counting over the atom list (`Model.countWhere`);
* geometric oracles of the host (pair_fit, set_dihedral, random rotations)
  are abstract parameters: a rigid fit is an arbitrary coordinate map applied
  to the moving model, a fit attempt reports an arbitrary residual RMS;
* Python floats become rationals, Python exceptions become `Except`.

Sources embedded: `pmlbeta/betafab2.py` (BetaPeptide methods and the sequence
parser), `pmlbeta/secstructdb.py` (SecondaryStructureDB), `pmlbeta/utils.py`
(set_dihedral), `pmlbeta/betafabgui2/sequencemodel.py` (AminoAcidResidue).
-/

namespace PmlBeta

/-- A 3D coordinate, as in chempy atoms (Python floats modelled by rationals). -/
abbrev Coord := ℚ × ℚ × ℚ

/-- One atom of a chempy model: `name`, `resn`, `resi_number`, `coord`.
Only the fields the embedded code inspects are kept. -/
structure Atom where
  name : String
  resn : String
  resi : Nat
  coord : Coord
  deriving DecidableEq, Repr

/-- A chempy `Indexed` model: a list of atoms plus bonds given as pairs of
indices into the atom list (`b.index` in chempy). -/
structure Model where
  atoms : List Atom
  bonds : List (Nat × Nat)
  deriving DecidableEq, Repr

/-- Two atom indices are bonded (a chempy bond lists its two indices in
either order). -/
def Model.adjacent (m : Model) (i j : Nat) : Bool :=
  m.bonds.any fun b => (b.1 == i && b.2 == j) || (b.1 == j && b.2 == i)

/-- Count the atoms satisfying an indexed predicate: the embedding of
`cmd.count_atoms` for a selection expressed as a predicate. -/
def Model.countWhere (m : Model) (p : Nat → Atom → Bool) : Nat :=
  (m.atoms.enum.filter fun ia => p ia.1 ia.2).length

/-- The PyMOL `neighbor S` selection operator: atoms directly bonded to an
atom of `S` and not themselves members of `S`. -/
def Model.isNeighborOf (m : Model) (s : Nat → Atom → Bool) (i : Nat) (a : Atom) : Bool :=
  !s i a && (m.atoms.enum.any fun ja => s ja.1 ja.2 && m.adjacent i ja.1)

/-- Split a list of characters at every occurrence of a separator. -/
def splitOnChar (sep : Char) : List Char → List (List Char)
  | [] => [[]]
  | c :: rest =>
    let r := splitOnChar sep rest
    if c = sep then [] :: r
    else
      match r with
      | [] => [[c]]
      | h :: t => (c :: h) :: t

/-- The atom names selected by a PyMOL `name` pattern: `+` separates
alternative names, as in `name CB+CB1`. -/
def namePattern (pat : String) : List String :=
  (splitOnChar '+' pat.data).map List.asString

/-- Membership of an atom name in a `name` pattern. -/
def nameMatches (pat : String) (nm : String) : Bool :=
  (namePattern pat).contains nm

/-- Selection `(modelname) and name {nm} and resi {resi}` used by
`utils.set_dihedral`, counted over the model. -/
def countNameResi (m : Model) (nr : String × Nat) : Nat :=
  m.countWhere fun _ a => nameMatches nr.1 a.name && a.resi == nr.2

/-- Embedding of `pmlbeta.utils.set_dihedral`.  The geometric edit itself is
performed by the host (`cmd.set_dihedral`), modelled by the abstract
primitive `prim`; the wrapper counts each of the four selections and refuses
to call the primitive unless every selection resolves to exactly one atom,
in which case the primitive receives the four (name, resi) selections and
the target value. -/
def set_dihedral
    (prim : Model → (String × Nat) → (String × Nat) → (String × Nat) → (String × Nat) → ℚ → Model)
    (m : Model) (nr1 nr2 nr3 nr4 : String × Nat) (value : ℚ) : Bool × Model :=
  if !([nr1, nr2, nr3, nr4].all fun nr => countNameResi m nr == 1) then
    (false, m)
  else
    (true, prim m nr1 nr2 nr3 nr4 value)

/-! ## Secondary structure database (`pmlbeta/secstructdb.py`) -/

/-- One entry of the secondary-structure database: three torsion angles,
the middle one absent (`None`) for alpha-peptide secondary structures. -/
structure SSEntry where
  phi : ℚ
  theta : Option ℚ
  psi : ℚ
  deriving DecidableEq, Repr

/-- The preference store `BETAFAB_HELIXTYPES` as an ordered key/value list
(Python dicts preserve insertion order). -/
abbrev SSStore := List (String × SSEntry)

/-- The exact rational `n / 10^k`, the value of a decimal literal with `k`
fractional digits.  Built with `Rat.divInt` rather than division because
`Rat.inv` (hence `/` on `ℚ`) is irreducible and would block kernel
evaluation of concrete instances. -/
def decimal (n : Int) (k : Nat) : ℚ := Rat.divInt n (10 ^ k)

/-- The shipped `SecondaryStructureDB.DEFAULT_HELIXTYPES` table. -/
def DEFAULT_HELIXTYPES : SSStore :=
  [("Z6M", ⟨decimal 1267 1, some (decimal 626 1), decimal 1527 1⟩),
   ("Z6P", ⟨decimal (-1267) 1, some (decimal (-626) 1), decimal (-1527) 1⟩),
   ("Z8M", ⟨decimal 475 1, some (decimal 535 1), decimal (-1043) 1⟩),
   ("Z8P", ⟨decimal (-475) 1, some (decimal (-535) 1), decimal 1043 1⟩),
   ("H8M", ⟨decimal 768 1, some (decimal (-1206) 1), decimal 527 1⟩),
   ("H8P", ⟨decimal (-768) 1, some (decimal 1206 1), decimal (-527) 1⟩),
   ("H10M", ⟨decimal (-775) 1, some (decimal (-518) 1), decimal (-751) 1⟩),
   ("H10P", ⟨decimal 775 1, some (decimal 518 1), decimal 751 1⟩),
   ("H12M", ⟨decimal 923 1, some (decimal (-900) 1), decimal 1046 1⟩),
   ("H12P", ⟨decimal (-923) 1, some (decimal 900 1), decimal (-1046) 1⟩),
   ("H14M", ⟨decimal (-1403) 1, some (decimal 665 1), decimal (-1368) 1⟩),
   ("H14P", ⟨decimal 1403 1, some (decimal (-665) 1), decimal 1368 1⟩),
   ("SM", ⟨decimal 705 1, some (decimal 1762 1), decimal 1689 1⟩),
   ("SP", ⟨decimal (-705) 1, some (decimal (-1762) 1), decimal (-1689) 1⟩),
   ("Straight", ⟨decimal 180 0, some (decimal 180 0), decimal 180 0⟩),
   ("Straight alpha", ⟨decimal 180 0, none, decimal 180 0⟩),
   ("Alpha-helix", ⟨decimal (-57) 0, none, decimal (-47) 0⟩),
   ("3_10-helix", ⟨decimal (-49) 0, none, decimal (-26) 0⟩),
   ("P-beta-sheet", ⟨decimal (-119) 0, none, decimal 113 0⟩),
   ("AP-beta-sheet", ⟨decimal (-139) 0, none, decimal 135 0⟩)]

/-- `SecondaryStructureDB.getAll`: split the stored table into alpha entries
(no middle angle) and beta entries (middle angle present) and merge the
requested parts, alpha entries first (the Python code builds a dict by
updating with the alpha part and then the beta part). -/
def getAll (store : SSStore) (alpha beta : Bool) : SSStore :=
  let ssbeta := store.filter fun kv => kv.2.theta.isSome
  let ssalpha := store.filter fun kv => kv.2.theta.isNone
  (if alpha then ssalpha else []) ++ (if beta then ssbeta else [])

/-- `SecondaryStructureDB.dihedrals`: keyed lookup in the full table;
a missing name is a `KeyError`. -/
def dihedralsOf (store : SSStore) (name : String) : Except String SSEntry :=
  match (getAll store true true).lookup name with
  | some e => .ok e
  | none => .error ("KeyError: " ++ name)

/-- Python's `abs` on a number (kept as an executable conditional so that
concrete instances evaluate by kernel reduction). -/
def ratAbs (q : ℚ) : ℚ := if q < 0 then -q else q

/-- `ratAbs` is the absolute value. -/
theorem ratAbs_eq (q : ℚ) : ratAbs q = |q| := by
  unfold ratAbs
  split
  · exact (abs_of_neg (by assumption)).symm
  · exact (abs_of_nonneg (by exact le_of_not_lt (by assumption))).symm

/-- Kernel-evaluable rational subtraction (the library `Rat.sub` is
irreducible); `ratSub_eq` shows it is ordinary subtraction. -/
def ratSub (a b : ℚ) : ℚ := mkRat (a.num * b.den - b.num * a.den) (a.den * b.den)

/-- `ratSub` is subtraction on `ℚ`. -/
theorem ratSub_eq (a b : ℚ) : ratSub a b = a - b := (Rat.sub_def' a b).symm

/-- Kernel-evaluable rational addition (the library `Rat.add` is
irreducible); `ratAdd_eq` shows it is ordinary addition. -/
def ratAdd (a b : ℚ) : ℚ := mkRat (a.num * b.den + b.num * a.den) (a.den * b.den)

/-- `ratAdd` is addition on `ℚ`. -/
theorem ratAdd_eq (a b : ℚ) : ratAdd a b = a + b := (Rat.add_def' a b).symm

/-- The per-entry tolerance test of `SecondaryStructureDB.find`: an entry
matches a query when it is of the query's class (alpha iff the query has no
middle angle) and each stored angle is strictly within `tol` of the
corresponding query angle (`abs(stored - query) < tolerance` in the source,
written with the evaluable `ratAbs`/`ratSub`). -/
def ssMatchesWithin (phi : ℚ) (theta : Option ℚ) (psi : ℚ) (tol : ℚ) (e : SSEntry) : Bool :=
  match theta, e.theta with
  | none, none => ratAbs (ratSub e.phi phi) < tol && ratAbs (ratSub e.psi psi) < tol
  | some th, some eth =>
    ratAbs (ratSub e.phi phi) < tol && ratAbs (ratSub eth th) < tol &&
      ratAbs (ratSub e.psi psi) < tol
  | _, _ => false

/-- Total absolute angle deviation of an entry from the query, as summed by
`SecondaryStructureDB.find` for the entries inside the tolerance. -/
def ssDeviation (phi : ℚ) (theta : Option ℚ) (psi : ℚ) (e : SSEntry) : ℚ :=
  ratAdd (ratAdd (ratAbs (ratSub e.phi phi))
    (match theta, e.theta with
     | some th, some eth => ratAbs (ratSub eth th)
     | _, _ => 0))
    (ratAbs (ratSub e.psi psi))

/-- The `diff` dictionary of `SecondaryStructureDB.find`: every entry of the
query's class within tolerance, mapped to its total deviation. -/
def findCandidates (store : SSStore) (phi : ℚ) (theta : Option ℚ) (psi : ℚ) (tol : ℚ) :
    List (String × ℚ) :=
  (getAll store true true).filterMap fun kv =>
    if ssMatchesWithin phi theta psi tol kv.2 then
      some (kv.1, ssDeviation phi theta psi kv.2)
    else none

/-- `SecondaryStructureDB.find`: if no entry is within tolerance return
`none`; otherwise return the first name attaining the minimal deviation. -/
def find (store : SSStore) (phi : ℚ) (theta : Option ℚ) (psi : ℚ) (tol : ℚ) : Option String :=
  match findCandidates store phi theta psi tol with
  | [] => none
  | d0 :: drest =>
    let mindiff := drest.foldl (fun acc kv => min acc kv.2) d0.2
    (((d0 :: drest).filter fun kv => kv.2 == mindiff).head?).map Prod.fst

/-- Python semantics of `object.__new__()` called with zero arguments, as done
by `SecondaryStructureDB.__new__` via `super().__new__()`: `object.__new__`
requires the class to instantiate as its argument, so the call raises
`TypeError` before producing any object. -/
def objectNewNoArgs (Inst : Type) : Except String Inst :=
  .error "TypeError: object.__new__(): not enough arguments"

/-- Embedding of `SecondaryStructureDB.__new__` as a transition on the class
attribute `_instance` (`none` initially): when `_instance` is `None` the
method calls `super().__new__()` and would store and return the result; when
it is set, the stored instance is returned.  The returned pair is the new
value of `_instance` and the call's outcome. -/
def ssdbNew (Inst : Type) (instanceVar : Option Inst) : Option Inst × Except String Inst :=
  match instanceVar with
  | none =>
    match objectNewNoArgs Inst with
    | .error e => (none, .error e)
    | .ok obj => (some obj, .ok obj)
  | some inst => (some inst, .ok inst)

/-- Iterate `SecondaryStructureDB()` `n` times from a given `_instance` state,
collecting every call's outcome. -/
def ssdbNewIter (Inst : Type) : Nat → Option Inst × List (Except String Inst)
  | 0 => (none, [])
  | n + 1 =>
    let (st, rs) := ssdbNewIter Inst n
    let (st2, r) := ssdbNew Inst st
    (st2, rs ++ [r])

/-! ## Alpha-residue construction (`BetaPeptide.initializeAlphaResidue`) -/

/-- The `BetaPeptide.SIDECHAINS` fragment table. -/
def SIDECHAINS : List (String × String) :=
  [("A", "ala"), ("C", "cys"), ("CM", "cys"), ("D", "asp"), ("DH", "asph"),
   ("E", "glu"), ("EH", "gluh"), ("F", "phe"), ("G", "gly"), ("HD", "hid"),
   ("HE", "hie"), ("HH", "hip"), ("H", "his"), ("I", "ile"), ("K", "lys"),
   ("O", "orp"), ("KN", "lysn"), ("ON", "orn"), ("L", "leu"), ("M", "met"),
   ("N", "asn"), ("P", "pro"), ("Q", "gln"), ("R", "arg"), ("S", "ser"),
   ("T", "thr"), ("V", "val"), ("W", "trp"), ("Y", "tyr")]

/-- The chirality-inversion test of `initializeAlphaResidue`, verbatim from
the source: skip achiral glycine; invert for `D`; invert for `R` unless the
side chain is cysteine-like (`C`, `CM`); invert for `S` when it is. -/
def alphaInversionNeeded (sidechain stereo : String) : Bool :=
  sidechain != "G" &&
    (stereo == "D" ||
      (stereo == "R" && !(["C", "CM"].contains sidechain)) ||
      (stereo == "S" && ["C", "CM"].contains sidechain))

/-- Host operations performed by `initializeAlphaResidue`, in order. -/
inductive AlphaBuildOp where
  | deleteModel
  | loadFragment (frag : String)
  | removeAtoms (sel : String)
  | alterAtoms (sel : String) (expr : String)
  | invert (pick1 pick2 pick3 : String)
  | renameAtoms (resi : Nat)
  deriving DecidableEq, Repr

/-- Embedding of `BetaPeptide.initializeAlphaResidue` as the ordered list of
host operations it performs: fragment load (a `KeyError` when the side-chain
code is unknown to `SIDECHAINS`), the thiolate special edits for `CM`, the
residue/chain assignment, the conditional pivot-bond chirality inversion
`cmd.edit(CA, HA, C); cmd.invert()`, and the renaming pass. -/
def initializeAlphaResidue (sidechain stereo : String) : Except String (List AlphaBuildOp) :=
  match SIDECHAINS.lookup sidechain with
  | none => .error ("KeyError: " ++ sidechain)
  | some frag =>
    .ok ([AlphaBuildOp.deleteModel, AlphaBuildOp.loadFragment frag] ++
      (if sidechain == "CM" then
        [AlphaBuildOp.removeAtoms "name HG",
         AlphaBuildOp.alterAtoms "name SG" "formal_charge=-1",
         AlphaBuildOp.alterAtoms "name SG" "partial_charge=-1",
         AlphaBuildOp.alterAtoms "all" "resn=CYM"]
       else []) ++
      [AlphaBuildOp.alterAtoms "all" "resv=1", AlphaBuildOp.alterAtoms "all" "chain=A"] ++
      (if alphaInversionNeeded sidechain stereo then
        [AlphaBuildOp.invert "CA" "HA" "C"]
       else []) ++
      [AlphaBuildOp.renameAtoms 1])

/-! ## Peptide predicates and the consistency validator (`betafab2.py`) -/

/-- Highest residue number of a model (`max(a.resi_number for a in atoms)`;
the Python raises on an empty model, which never occurs in the embedded
call sites). -/
def Model.maxResi (m : Model) : Nat :=
  (m.atoms.map Atom.resi).foldr max 0

/-- Lowest residue number of a model. -/
def Model.minResi (m : Model) : Nat :=
  match m.atoms.map Atom.resi with
  | [] => 0
  | r :: rs => rs.foldl min r

/-- Residue name of residue `i` (`get_model('resi i').atom[0].resn`; the
Python raises `IndexError` on an uninhabited residue — all theorems below
range over inhabited residues). -/
def Model.resnameOf (m : Model) (i : Nat) : String :=
  ((((m.atoms.filter fun a => a.resi == i)).head?).map Atom.resn).getD ""

/-- `model and resi i and (neighbor name N) and (name H+HN)`. -/
def Model.hcount (m : Model) (i : Nat) : Nat :=
  m.countWhere fun k a =>
    a.resi == i && m.isNeighborOf (fun _ b => b.name == "N") k a &&
      (a.name == "H" || a.name == "HN")

/-- `(neighbor (model and resi i and name N)) and (resi (i-1) and name C)`. -/
def Model.ccount (m : Model) (i : Nat) : Nat :=
  m.countWhere fun k a =>
    m.isNeighborOf (fun _ b => b.resi == i && b.name == "N") k a &&
      (a.resi == i - 1 && a.name == "C")

/-- `model and resi i and (neighbor name C) and name O`. -/
def Model.ocount (m : Model) (i : Nat) : Nat :=
  m.countWhere fun k a =>
    a.resi == i && m.isNeighborOf (fun _ b => b.name == "C") k a && a.name == "O"

/-- `(neighbor (model and resi i and name C)) and (resi (i+1) and name N)`. -/
def Model.ncount (m : Model) (i : Nat) : Nat :=
  m.countWhere fun k a =>
    m.isNeighborOf (fun _ b => b.resi == i && b.name == "C") k a &&
      (a.resi == i + 1 && a.name == "N")

/-- `model and resi i and (neighbor name N) and (name CB+CB1+CA)`. -/
def Model.cbcount (m : Model) (i : Nat) : Nat :=
  m.countWhere fun k a =>
    a.resi == i && m.isNeighborOf (fun _ b => b.name == "N") k a &&
      (a.name == "CB" || a.name == "CB1" || a.name == "CA")

/-- `model and resi i and (neighbor name C) and (name CA)`. -/
def Model.cacount (m : Model) (i : Nat) : Nat :=
  m.countWhere fun k a =>
    a.resi == i && m.isNeighborOf (fun _ b => b.name == "C") k a && a.name == "CA"

/-- The per-residue body of `BetaPeptide.checkPeptide`, in source order:
amide-hydrogen and previous-residue amide-carbon checks for non-N-terminal
non-proline residues, oxygen and next-residue nitrogen checks for
non-C-terminal residues, then the CB/CB1/CA-neighbour-of-N rule (capping
residues `NME`, `ACE`, `BUT` exempt) and the CA-neighbour-of-C rule
(`ACE` and `NME` exempt). -/
def checkResidue (m : Model) (maxres i : Nat) : Except String Unit :=
  if i > 1 ∧ m.resnameOf i ∉ ["PRO", "DPRO"] ∧ m.hcount i ≠ 1 then
    .error ("Amide N in residue " ++ toString i ++ " has " ++
      toString (m.hcount i) ++ " hydrogens.")
  else if i > 1 ∧ m.resnameOf i ∉ ["PRO", "DPRO"] ∧ m.ccount i ≠ 1 then
    .error ("Amide N in residue " ++ toString i ++ " has " ++
      toString (m.ccount i) ++ " amide carbons from the previous residue.")
  else if i < maxres ∧ m.ocount i ≠ 1 then
    .error ("Amide C in residue " ++ toString i ++ " has " ++
      toString (m.ocount i) ++ " oxygens.")
  else if i < maxres ∧ m.ncount i ≠ 1 then
    .error ("Amide C in residue " ++ toString i ++ " has " ++
      toString (m.ncount i) ++ " amide nitrogens from the next residue")
  else if m.cbcount i ≠ 1 ∧ m.resnameOf i ≠ "NME" ∧ m.resnameOf i ≠ "ACE" ∧
      m.resnameOf i ≠ "BUT" then
    .error ("Amide N in residue " ++ toString i ++ " has " ++
      toString (m.cbcount i) ++ " CA or CB neighbours.")
  else if m.cacount i ≠ 1 ∧ m.resnameOf i ≠ "ACE" ∧ m.resnameOf i ≠ "NME" then
    .error ("Amide C in residue " ++ toString i ++ " has " ++
      toString (m.cacount i) ++ " CA neighbours.")
  else .ok ()

/-- Run the per-residue checks over a list of residue numbers, stopping at
the first failure. -/
def checkResidues (m : Model) (maxres : Nat) : List Nat → Except String Unit
  | [] => .ok ()
  | i :: rest =>
    match checkResidue m maxres i with
    | .error e => .error e
    | .ok _ => checkResidues m maxres rest

/-- Embedding of `BetaPeptide.checkPeptide`: residue numbering must start at
1, then every residue in `1..maxResi` passes `checkResidue`. -/
def checkPeptide (m : Model) : Except String Unit :=
  if m.minResi ≠ 1 then
    .error ("Lowest residue number is " ++ toString m.minResi ++
      " instead of the expected 1.")
  else checkResidues m m.maxResi (List.range' 1 m.maxResi)

/-- `BetaPeptide.isNProtected`: some neighbour of the residue-1 nitrogen is
not one of `CB CB1 CA H HN CH3`. -/
def Model.isNProtected (m : Model) : Bool :=
  0 < m.countWhere fun k a =>
    m.isNeighborOf (fun _ b => b.name == "N" && b.resi == 1) k a &&
      !(["CB", "CB1", "CA", "H", "HN", "CH3"].contains a.name)

/-- `BetaPeptide.isCProtected`: some neighbour of the last residue's carbon
is not one of `O CA CH3`. -/
def Model.isCProtected (m : Model) : Bool :=
  0 < m.countWhere fun k a =>
    m.isNeighborOf (fun _ b => b.name == "C" && b.resi == m.maxResi) k a &&
      !(["O", "CA", "CH3"].contains a.name)

/-- `BetaPeptide.startsWithProline`: the atoms of the lowest-numbered residue
must share one residue name (else a consistency error), which is then
compared with `PRO`/`DPRO`. -/
def Model.startsWithProlineE (m : Model) : Except String Bool :=
  let names := (m.atoms.filter fun a => a.resi == m.minResi).map Atom.resn
  if names.any fun r => r != names.headD "" then
    .error "Atoms in the same residue must have the same residue names."
  else
    .ok (names.headD "" == "PRO" || names.headD "" == "DPRO")

/-! ## Rigid superposition with retries (`BetaPeptide.safe_pairfit`) -/

/-- The message of the `RuntimeError` raised by `safe_pairfit` when the
attempt budget is exhausted, reporting the tolerance and achieved RMS. -/
def fitErrorMsg (tol rms : ℚ) : String :=
  "Could not fit with RMS less than " ++ toString tol ++ ". RMS is: " ++ toString rms

/-- The retry loop of `BetaPeptide.safe_pairfit` over an abstract state `M`
of the moving model.  `fitRms s` is the residual RMS reported by
`cmd.pair_fit` on state `s` (the host also applies the fitted motion, which
the claims do not observe); `rot i` is the random rotation about a random
axis applied by attempt `i` on failure (`cmd.rotate`).  Attempt `i` computes
the RMS, returns it if it is below the tolerance, and otherwise rotates and
retries; when the final attempt fails the Python rotates once more (an
unobservable state change, dropped here) and raises with the last RMS. -/
def safe_pairfit_loop {M : Type} (fitRms : M → ℚ) (rot : Nat → M → M) (tol : ℚ) :
    Nat → Nat → M → Except String ℚ
  | 0, _, s => .error (fitErrorMsg tol (fitRms s))
  | 1, _, s =>
    if fitRms s < tol then .ok (fitRms s) else .error (fitErrorMsg tol (fitRms s))
  | n + 2, i, s =>
    if fitRms s < tol then .ok (fitRms s)
    else safe_pairfit_loop fitRms rot tol (n + 1) (i + 1) (rot i s)

/-- `BetaPeptide.safe_pairfit` with its attempt budget `ntries`. -/
def safe_pairfit {M : Type} (fitRms : M → ℚ) (rot : Nat → M → M) (tol : ℚ)
    (ntries : Nat) (s : M) : Except String ℚ :=
  safe_pairfit_loop fitRms rot tol ntries 0 s

/-- The state of the moving model before attempt `k`, when the first attempt
ran at rotation index `i` on state `s`: each failed attempt applies its
random rotation. -/
def fitState {M : Type} (rot : Nat → M → M) (i : Nat) (s : M) : Nat → M
  | 0 => s
  | k + 1 => rot (i + k) (fitState rot i s k)

/-! ## Chain fusion (`BetaPeptide.__iadd__`) -/

/-- Host actions of `__iadd__` that the error-handling claims observe. -/
inductive FuseEvent where
  | raiseCProtected
  | raiseNProtected
  | checkFailed (msg : String)
  | createScratch
  | fitLeft (tol : ℚ) (ntries : Nat)
  | fitRight (tol : ℚ) (ntries : Nat)
  | fuseAndBond
  deriving DecidableEq, Repr

/-- Increment every residue number (the renumbering loop applied to the
scratch copy of the right fragment). -/
def renumberBy (k : Nat) (m : Model) : Model :=
  ⟨m.atoms.map fun a => { a with resi := a.resi + k }, m.bonds⟩

/-- Apply a coordinate transformation to a whole model: the net rigid motion
a `pair_fit` (with its retry rotations) applies to the moving model. -/
def mapCoords (T : Coord → Coord) (m : Model) : Model :=
  ⟨m.atoms.map fun a => { a with coord := T a.coord }, m.bonds⟩

/-- Merge two models into one object (`cmd.fuse` with `mode=3` moves the
atoms of the first object into the second without bonding or moving them);
bond indices of the second part are shifted past the first part's atoms. -/
def mergeModels (l r : Model) : Model :=
  ⟨l.atoms ++ r.atoms,
   l.bonds ++ r.bonds.map fun b => (b.1 + l.atoms.length, b.2 + l.atoms.length)⟩

/-- `cmd.bond sel1 sel2`: create a bond between every atom matching `sel1`
and every atom matching `sel2`. -/
def bondAllPairs (m : Model) (sel1 sel2 : Atom → Bool) : Model :=
  let is1 := (m.atoms.enum.filter fun ia => sel1 ia.2).map Prod.fst
  let is2 := (m.atoms.enum.filter fun ia => sel2 ia.2).map Prod.fst
  { m with bonds := m.bonds ++ is1.flatMap fun i => is2.map fun j => (i, j) }

/-- The construction part of `__iadd__`, reached when neither protection
guard fires: validate both fragments, read the right fragment's
proline flag (used for the right-hand fit's atom names and tolerance),
renumber the right fragment by the left fragment's residue count, apply the
two rigid superpositions (their net motions are the abstract `TL`, `TR`;
`safe_pairfit` is invoked with tolerance 0.1 for the left fit and 0.1, or
0.3 for a proline start, for the right fit, 10 tries each), then merge the
two objects and create the new C–N peptide bond. -/
def iaddBody (TL TR : Coord → Coord) (left right : Model) :
    List FuseEvent × Except String Model :=
  match checkPeptide left with
  | .error e => ([FuseEvent.checkFailed e], .error e)
  | .ok _ =>
    match checkPeptide right with
    | .error e => ([FuseEvent.checkFailed e], .error e)
    | .ok _ =>
      match right.startsWithProlineE with
      | .error e => ([FuseEvent.createScratch, FuseEvent.checkFailed e], .error e)
      | .ok pro =>
        let maxleft := left.maxResi
        let right2 := mapCoords TR (renumberBy maxleft right)
        let left2 := mapCoords TL left
        let merged := mergeModels left2 right2
        let fused := bondAllPairs merged
          (fun a => a.resi == maxleft && a.name == "C")
          (fun a => a.resi == maxleft + 1 && a.name == "N")
        ([FuseEvent.createScratch, FuseEvent.fitLeft (decimal 1 1) 10,
          FuseEvent.fitRight (if pro then decimal 3 1 else decimal 1 1) 10,
          FuseEvent.fuseAndBond],
         .ok fused)

/-- Embedding of `BetaPeptide.__iadd__` (the `TypeError` guard is made
unrepresentable by typing).  The C-protection guard on the left fragment and
the N-protection guard on the right fragment (waived for a proline start)
are evaluated, in that order, before any scratch object is created or any
geometry touched; only then does the construction body run.  The first
component lists the host actions performed, the second is the outcome. -/
def iadd (TL TR : Coord → Coord) (left right : Model) :
    List FuseEvent × Except String Model :=
  if left.isCProtected then
    ([FuseEvent.raiseCProtected], .error "The N-terminal part is C-protected!")
  else if right.isNProtected then
    match right.startsWithProlineE with
    | .error e => ([FuseEvent.checkFailed e], .error e)
    | .ok true => iaddBody TL TR left right
    | .ok false =>
      ([FuseEvent.raiseNProtected], .error "The C-terminal part is N-protected!")
  else iaddBody TL TR left right

/-! ## Claim theorems (first group) -/

/-- Claim C9: `set_dihedral` with four (atom-name, residue-number) selections
returns `False` without modifying the model whenever some selection does not
resolve to exactly one atom, and otherwise invokes the host dihedral edit on
the four selections with the target value and returns `True`. -/
theorem set_dihedral_unique_or_noop
    (prim : Model → (String × Nat) → (String × Nat) → (String × Nat) → (String × Nat) → ℚ → Model)
    (m : Model) (nr1 nr2 nr3 nr4 : String × Nat) (value : ℚ) :
    (¬ (countNameResi m nr1 = 1 ∧ countNameResi m nr2 = 1 ∧
         countNameResi m nr3 = 1 ∧ countNameResi m nr4 = 1) →
       set_dihedral prim m nr1 nr2 nr3 nr4 value = (false, m)) ∧
    ((countNameResi m nr1 = 1 ∧ countNameResi m nr2 = 1 ∧
       countNameResi m nr3 = 1 ∧ countNameResi m nr4 = 1) →
       set_dihedral prim m nr1 nr2 nr3 nr4 value = (true, prim m nr1 nr2 nr3 nr4 value)) := by
  have hiff : (([nr1, nr2, nr3, nr4].all fun nr => countNameResi m nr == 1) = true) ↔
      (countNameResi m nr1 = 1 ∧ countNameResi m nr2 = 1 ∧
        countNameResi m nr3 = 1 ∧ countNameResi m nr4 = 1) := by
    simp [List.all_cons, and_assoc]
  constructor
  · intro h
    have hfalse : ([nr1, nr2, nr3, nr4].all fun nr => countNameResi m nr == 1) = false := by
      cases hb : ([nr1, nr2, nr3, nr4].all fun nr => countNameResi m nr == 1) with
      | false => rfl
      | true => exact absurd (hiff.mp hb) h
    simp [set_dihedral, hfalse]
  · intro h
    have hb := hiff.mpr h
    simp [set_dihedral, hb]

/-- Concrete instantiation of the `set_dihedral` theorem: in a four-atom
model where each selection is unique, the edit is applied and `True`
returned. -/
theorem set_dihedral_unique_or_noop_witness :
    (countNameResi ⟨[⟨"N", "GLY", 1, (0, 0, 0)⟩, ⟨"CA", "GLY", 1, (1, 0, 0)⟩,
                     ⟨"C", "GLY", 1, (2, 0, 0)⟩, ⟨"O", "GLY", 1, (3, 0, 0)⟩], []⟩
       ("N", 1) = 1) ∧
    set_dihedral (fun m _ _ _ _ _ => m)
      ⟨[⟨"N", "GLY", 1, (0, 0, 0)⟩, ⟨"CA", "GLY", 1, (1, 0, 0)⟩,
        ⟨"C", "GLY", 1, (2, 0, 0)⟩, ⟨"O", "GLY", 1, (3, 0, 0)⟩], []⟩
      ("N", 1) ("CA", 1) ("C", 1) ("O", 1) 180 =
      (true, ⟨[⟨"N", "GLY", 1, (0, 0, 0)⟩, ⟨"CA", "GLY", 1, (1, 0, 0)⟩,
               ⟨"C", "GLY", 1, (2, 0, 0)⟩, ⟨"O", "GLY", 1, (3, 0, 0)⟩], []⟩) :=
  ⟨by decide,
   (set_dihedral_unique_or_noop (fun m _ _ _ _ _ => m) _ _ _ _ _ 180).2
     (by refine ⟨?_, ?_, ?_, ?_⟩ <;> decide)⟩

/-- The candidate list of `find` is the within-tolerance filter of the full
table, each entry paired with its deviation. -/
theorem findCandidates_eq (store : SSStore) (phi : ℚ) (theta : Option ℚ) (psi : ℚ) (tol : ℚ) :
    findCandidates store phi theta psi tol =
      ((getAll store true true).filter fun kv => ssMatchesWithin phi theta psi tol kv.2).map
        (fun kv => (kv.1, ssDeviation phi theta psi kv.2)) := by
  unfold findCandidates
  induction getAll store true true with
  | nil => rfl
  | cons hd tl ih =>
    by_cases h : ssMatchesWithin phi theta psi tol hd.2 <;>
      simp [List.filterMap_cons, List.filter_cons, h, ih]

/-- Claim C7: for a query with `theta = None` matched against alpha-type
entries and `theta ≠ None` matched against beta-type entries, when exactly
one stored entry has every angle strictly within the tolerance of the query,
`SecondaryStructureDB.find` returns that entry's name; when no entry is
within tolerance it returns `None` and does not raise. -/
theorem find_unique_match (store : SSStore) (phi : ℚ) (theta : Option ℚ) (psi : ℚ) (tol : ℚ) :
    (∀ k e, ((getAll store true true).filter fun kv => ssMatchesWithin phi theta psi tol kv.2) =
        [(k, e)] → find store phi theta psi tol = some k) ∧
    (((getAll store true true).filter fun kv => ssMatchesWithin phi theta psi tol kv.2) = [] →
        find store phi theta psi tol = none) := by
  constructor
  · intro k e hfilter
    have hc : findCandidates store phi theta psi tol = [(k, ssDeviation phi theta psi e)] := by
      rw [findCandidates_eq, hfilter]; rfl
    unfold find
    rw [hc]
    simp
  · intro hfilter
    have hc : findCandidates store phi theta psi tol = [] := by
      rw [findCandidates_eq, hfilter]; rfl
    unfold find
    rw [hc]

/-- Concrete instantiation of the `find` theorem on the default table: the
H14M angles match exactly the H14M entry, and the origin matches nothing. -/
theorem find_unique_match_witness :
    find DEFAULT_HELIXTYPES (decimal (-1403) 1) (some (decimal 665 1)) (decimal (-1368) 1)
      (decimal 5 1) = some "H14M" ∧
    find DEFAULT_HELIXTYPES 0 none 0 (decimal 5 1) = none :=
  ⟨(find_unique_match DEFAULT_HELIXTYPES (decimal (-1403) 1) (some (decimal 665 1))
      (decimal (-1368) 1) (decimal 5 1)).1
      "H14M" ⟨decimal (-1403) 1, some (decimal 665 1), decimal (-1368) 1⟩
      (by decide),
   (find_unique_match DEFAULT_HELIXTYPES 0 none 0 (decimal 5 1)).2 (by decide)⟩

/-- Claim C10: every attempt to instantiate `SecondaryStructureDB` raises
`TypeError`, because `__new__` calls `super().__new__()` without the class
argument; consequently `_instance` is never assigned: iterating the
constructor any number of times from the initial state leaves `_instance`
at `None` and yields only `TypeError` outcomes, so no instance ever exists
and the database operations are reachable only as classmethods. -/
theorem ssdbNew_always_TypeError (Inst : Type) (n : Nat) :
    (ssdbNewIter Inst n).1 = none ∧
    (ssdbNewIter Inst n).2 =
      List.replicate n
        (Except.error "TypeError: object.__new__(): not enough arguments") := by
  induction n with
  | zero => exact ⟨rfl, rfl⟩
  | succ k ih =>
    refine ⟨?_, ?_⟩ <;>
      simp [ssdbNewIter, ih.1, ih.2, ssdbNew, objectNewNoArgs, List.replicate_succ']

/-- Claim C8: for an alpha residue with a known side-chain code, the
pivot-bond chirality inversion at the alpha carbon (edit `CA` with its `HA`
and `C` neighbours, then invert) is performed iff the side chain is not
glycine and either stereo `D` is requested, or stereo `R` with a
non-cysteine-like side chain, or stereo `S` with a cysteine-like side chain;
in particular stereo `L` never triggers an inversion and glycine is never
inverted. -/
theorem initializeAlphaResidue_inversion (sidechain stereo : String)
    (ops : List AlphaBuildOp) (h : initializeAlphaResidue sidechain stereo = .ok ops) :
    ((AlphaBuildOp.invert "CA" "HA" "C") ∈ ops ↔
      (sidechain ≠ "G" ∧
        (stereo = "D" ∨ (stereo = "R" ∧ sidechain ∉ (["C", "CM"] : List String)) ∨
          (stereo = "S" ∧ sidechain ∈ (["C", "CM"] : List String))))) ∧
    (stereo = "L" → (AlphaBuildOp.invert "CA" "HA" "C") ∉ ops) ∧
    (sidechain = "G" → (AlphaBuildOp.invert "CA" "HA" "C") ∉ ops) := by
  have hcond : (alphaInversionNeeded sidechain stereo = true) ↔
      (sidechain ≠ "G" ∧
        (stereo = "D" ∨ (stereo = "R" ∧ sidechain ∉ (["C", "CM"] : List String)) ∨
          (stereo = "S" ∧ sidechain ∈ (["C", "CM"] : List String)))) := by
    simp only [alphaInversionNeeded, Bool.and_eq_true, Bool.or_eq_true, bne_iff_ne, ne_eq,
      beq_iff_eq, Bool.not_eq_true', ← Bool.not_eq_true, List.elem_iff]
    tauto
  have hmem : (AlphaBuildOp.invert "CA" "HA" "C") ∈ ops ↔
      alphaInversionNeeded sidechain stereo = true := by
    unfold initializeAlphaResidue at h
    cases hlook : SIDECHAINS.lookup sidechain with
    | none => rw [hlook] at h; exact absurd h (by simp)
    | some frag =>
      rw [hlook] at h
      have hops := Except.ok.inj h
      subst hops
      by_cases hcm : (sidechain == "CM") = true <;>
        cases hinv : alphaInversionNeeded sidechain stereo <;>
          simp [hcm, hinv]
  refine ⟨hmem.trans hcond, ?_, ?_⟩
  · intro hL
    rw [hmem, hcond, hL]
    rintro ⟨-, hcase | hcase | hcase⟩
    · exact absurd hcase.symm (by decide)
    · exact absurd hcase.1.symm (by decide)
    · exact absurd hcase.1.symm (by decide)
  · intro hG
    rw [hmem, hcond, hG]
    rintro ⟨hne, -⟩
    exact hne rfl

/-- Shift indices of state evolution: running the retry loop one rotation
later is the same as looking one attempt further. -/
theorem fitState_shift {M : Type} (rot : Nat → M → M) (i : Nat) (s : M) (k : Nat) :
    fitState rot (i + 1) (rot i s) k = fitState rot i s (k + 1) := by
  induction k with
  | zero => rfl
  | succ k ih =>
    show rot (i + 1 + k) (fitState rot (i + 1) (rot i s) k) = _
    rw [ih]
    show _ = rot (i + (k + 1)) (fitState rot i s (k + 1))
    congr 1
    omega

/-- If every one of the `n` budgeted attempts stays at or above the
tolerance, the retry loop raises, reporting the tolerance and the RMS of the
final attempt. -/
theorem safe_pairfit_loop_exhaust {M : Type} (fitRms : M → ℚ) (rot : Nat → M → M) (tol : ℚ) :
    ∀ n i s, 0 < n → (∀ k, k < n → ¬ fitRms (fitState rot i s k) < tol) →
      safe_pairfit_loop fitRms rot tol n i s =
        .error (fitErrorMsg tol (fitRms (fitState rot i s (n - 1)))) := by
  intro n
  induction n with
  | zero => intro i s h; omega
  | succ n ih =>
    intro i s _ hall
    have h0 : ¬ fitRms s < tol := hall 0 (Nat.succ_pos n)
    match n with
    | 0 =>
      simp only [safe_pairfit_loop, if_neg h0]
      rfl
    | n' + 1 =>
      simp only [safe_pairfit_loop, if_neg h0]
      have hrec := ih (i + 1) (rot i s) (Nat.succ_pos n') (fun k hk => by
        rw [fitState_shift]
        exact hall (k + 1) (by omega))
      rw [hrec, fitState_shift]
      have harith : n' + 1 - 1 + 1 = n' + 1 + 1 - 1 := by omega
      rw [harith]

/-- The retry loop returns the RMS of the first attempt that beats the
tolerance. -/
theorem safe_pairfit_loop_success {M : Type} (fitRms : M → ℚ) (rot : Nat → M → M) (tol : ℚ) :
    ∀ n i s k0, k0 < n → fitRms (fitState rot i s k0) < tol →
      (∀ j, j < k0 → ¬ fitRms (fitState rot i s j) < tol) →
      safe_pairfit_loop fitRms rot tol n i s = .ok (fitRms (fitState rot i s k0)) := by
  intro n
  induction n with
  | zero => intro i s k0 h; omega
  | succ n ih =>
    intro i s k0 hk0 hhit hprev
    match k0 with
    | 0 =>
      have hhit' : fitRms s < tol := hhit
      match n with
      | 0 =>
        simp only [safe_pairfit_loop]
        rw [if_pos hhit']
        rfl
      | n' + 1 =>
        simp only [safe_pairfit_loop]
        rw [if_pos hhit']
        rfl
    | k0' + 1 =>
      have h0 : ¬ fitRms s < tol := hprev 0 (Nat.succ_pos k0')
      match n, hk0 with
      | n' + 1, _ =>
        simp only [safe_pairfit_loop, if_neg h0]
        have := ih (i + 1) (rot i s) k0' (by omega)
          (by rw [fitState_shift]; exact hhit)
          (fun j hj => by rw [fitState_shift]; exact hprev (j + 1) (by omega))
        rw [this, fitState_shift]

/-- Claim C2: each of the two rigid superpositions of chain fusion performs
at most 10 fit attempts, applying a random rotation about a random axis to
the moving fragment between attempts; it returns as soon as the residual
RMS is below the tolerance; after exhausting all 10 attempts it raises an
error whose message reports both the achieved RMS and the tolerance; and
`__iadd__` requests tolerance 0.1 for the left fit and 0.1 — or 0.3 when
the right fragment starts with a proline-type residue — for the right fit,
with the default 10 tries. -/
theorem safe_pairfit_retry_budget {M : Type} (fitRms : M → ℚ) (rot : Nat → M → M)
    (tol : ℚ) (s : M) (TL TR : Coord → Coord) (left right : Model) (pro : Bool) :
    (∀ k0, k0 < 10 → fitRms (fitState rot 0 s k0) < tol →
      (∀ j, j < k0 → ¬ fitRms (fitState rot 0 s j) < tol) →
      safe_pairfit fitRms rot tol 10 s = .ok (fitRms (fitState rot 0 s k0))) ∧
    ((∀ k, k < 10 → ¬ fitRms (fitState rot 0 s k) < tol) →
      safe_pairfit fitRms rot tol 10 s =
        .error (fitErrorMsg tol (fitRms (fitState rot 0 s 9)))) ∧
    (right.startsWithProlineE = .ok pro → checkPeptide left = .ok () →
      checkPeptide right = .ok () →
      (iaddBody TL TR left right).1 =
        [FuseEvent.createScratch, FuseEvent.fitLeft (decimal 1 1) 10,
         FuseEvent.fitRight (if pro then decimal 3 1 else decimal 1 1) 10,
         FuseEvent.fuseAndBond]) := by
  refine ⟨?_, ?_, ?_⟩
  · intro k0 hk0 hhit hprev
    exact safe_pairfit_loop_success fitRms rot tol 10 0 s k0 hk0 hhit hprev
  · intro hall
    exact safe_pairfit_loop_exhaust fitRms rot tol 10 0 s (by omega) hall
  · intro hpro hl hr
    unfold iaddBody
    rw [hl, hr, hpro]

/-- Concrete instantiation of the retry-budget theorem: a fit whose RMS
drops below the tolerance at the fourth attempt returns it there, a fit
stuck at RMS 1 exhausts the budget and raises with RMS and tolerance, and a
valid single-glycine fusion requests tolerances 0.1 and 0.1. -/
theorem safe_pairfit_retry_budget_witness :
    safe_pairfit (fun n => if n < 3 then decimal 1 0 else decimal 0 0)
        (fun _ n => n + 1) (decimal 1 1) 10 0 =
      .ok ((fun n => if n < 3 then decimal 1 0 else decimal 0 0)
        (fitState (fun _ n => n + 1) 0 0 3)) ∧
    safe_pairfit (fun _ : Nat => decimal 1 0) (fun _ n => n + 1) (decimal 1 1) 10 0 =
      .error (fitErrorMsg (decimal 1 1)
        ((fun _ : Nat => decimal 1 0) (fitState (fun _ n => n + 1) 0 0 9))) ∧
    (iaddBody (fun c => c) (fun c => c)
        ⟨[⟨"N", "GLY", 1, (0, 0, 0)⟩, ⟨"CA", "GLY", 1, (1, 0, 0)⟩,
          ⟨"C", "GLY", 1, (2, 0, 0)⟩, ⟨"O", "GLY", 1, (3, 0, 0)⟩],
         [(0, 1), (1, 2), (2, 3)]⟩
        ⟨[⟨"N", "GLY", 1, (0, 0, 0)⟩, ⟨"CA", "GLY", 1, (1, 0, 0)⟩,
          ⟨"C", "GLY", 1, (2, 0, 0)⟩, ⟨"O", "GLY", 1, (3, 0, 0)⟩],
         [(0, 1), (1, 2), (2, 3)]⟩).1 =
      [FuseEvent.createScratch, FuseEvent.fitLeft (decimal 1 1) 10,
       FuseEvent.fitRight (decimal 1 1) 10, FuseEvent.fuseAndBond] :=
  ⟨(safe_pairfit_retry_budget (fun n => if n < 3 then decimal 1 0 else decimal 0 0)
      (fun _ n => n + 1) (decimal 1 1) 0 (fun c => c) (fun c => c)
      ⟨[], []⟩ ⟨[], []⟩ false).1 3 (by omega) (by decide) (by decide),
   (safe_pairfit_retry_budget (fun _ : Nat => decimal 1 0)
      (fun _ n => n + 1) (decimal 1 1) 0 (fun c => c) (fun c => c)
      ⟨[], []⟩ ⟨[], []⟩ false).2.1 (by decide),
   by
    have h := (safe_pairfit_retry_budget (fun _ : Nat => decimal 1 0) (fun _ n => n + 1)
      (decimal 1 1) 0 (fun c => c) (fun c => c)
      ⟨[⟨"N", "GLY", 1, (0, 0, 0)⟩, ⟨"CA", "GLY", 1, (1, 0, 0)⟩,
        ⟨"C", "GLY", 1, (2, 0, 0)⟩, ⟨"O", "GLY", 1, (3, 0, 0)⟩],
       [(0, 1), (1, 2), (2, 3)]⟩
      ⟨[⟨"N", "GLY", 1, (0, 0, 0)⟩, ⟨"CA", "GLY", 1, (1, 0, 0)⟩,
        ⟨"C", "GLY", 1, (2, 0, 0)⟩, ⟨"O", "GLY", 1, (3, 0, 0)⟩],
       [(0, 1), (1, 2), (2, 3)]⟩ false).2.2 (by rfl) (by rfl) (by rfl)
    simpa using h⟩

/-- Claim C3: in `left += right`, a capped C-terminus on `left` raises the
configuration error, and a capped N-terminus on `right` whose first residue
is not proline-type raises the configuration error; in both cases the raise
happens with no scratch structure created and no geometry touched. -/
theorem iadd_protection_guards (TL TR : Coord → Coord) (left right : Model) :
    (left.isCProtected = true →
      iadd TL TR left right =
        ([FuseEvent.raiseCProtected], .error "The N-terminal part is C-protected!") ∧
      FuseEvent.createScratch ∉ (iadd TL TR left right).1 ∧
      FuseEvent.fuseAndBond ∉ (iadd TL TR left right).1) ∧
    (left.isCProtected = false → right.isNProtected = true →
      right.startsWithProlineE = .ok false →
      iadd TL TR left right =
        ([FuseEvent.raiseNProtected], .error "The C-terminal part is N-protected!") ∧
      FuseEvent.createScratch ∉ (iadd TL TR left right).1 ∧
      FuseEvent.fuseAndBond ∉ (iadd TL TR left right).1) := by
  constructor
  · intro hc
    have heq : iadd TL TR left right =
        ([FuseEvent.raiseCProtected], .error "The N-terminal part is C-protected!") := by
      unfold iadd
      rw [if_pos hc]
    refine ⟨heq, ?_, ?_⟩ <;> rw [heq] <;> simp
  · intro hc hn hpro
    have heq : iadd TL TR left right =
        ([FuseEvent.raiseNProtected], .error "The C-terminal part is N-protected!") := by
      unfold iadd
      rw [if_neg (by simp [hc]), if_pos hn, hpro]
    refine ⟨heq, ?_, ?_⟩ <;> rw [heq] <;> simp

/-- A two-atom fragment whose carbonyl carbon carries a foreign substituent:
`isCProtected` holds. -/
def leftProtEx : Model :=
  ⟨[⟨"C", "GLY", 1, (0, 0, 0)⟩, ⟨"X", "GLY", 1, (1, 0, 0)⟩], [(0, 1)]⟩

/-- A minimal well-formed glycine-like residue; neither terminus is capped. -/
def leftGlyEx : Model :=
  ⟨[⟨"N", "GLY", 1, (0, 0, 0)⟩, ⟨"CA", "GLY", 1, (1, 0, 0)⟩,
    ⟨"C", "GLY", 1, (2, 0, 0)⟩, ⟨"O", "GLY", 1, (3, 0, 0)⟩],
   [(0, 1), (1, 2), (2, 3)]⟩

/-- A non-proline residue whose amide nitrogen carries a foreign
substituent: `isNProtected` holds and `startsWithProline` is false. -/
def rightNProtEx : Model :=
  ⟨[⟨"N", "GLY", 1, (0, 0, 0)⟩, ⟨"CA", "GLY", 1, (1, 0, 0)⟩,
    ⟨"X", "GLY", 1, (0, -1, 0)⟩, ⟨"C", "GLY", 1, (2, 0, 0)⟩,
    ⟨"O", "GLY", 1, (3, 0, 0)⟩],
   [(0, 1), (0, 2), (1, 3), (3, 4)]⟩

/-- Concrete instantiation of the protection-guard theorem on the example
fragments. -/
theorem iadd_protection_guards_witness :
    iadd (fun c => c) (fun c => c) leftProtEx leftGlyEx =
      ([FuseEvent.raiseCProtected], .error "The N-terminal part is C-protected!") ∧
    iadd (fun c => c) (fun c => c) leftGlyEx rightNProtEx =
      ([FuseEvent.raiseNProtected], .error "The C-terminal part is N-protected!") :=
  ⟨((iadd_protection_guards (fun c => c) (fun c => c) leftProtEx leftGlyEx).1
      (by decide)).1,
   ((iadd_protection_guards (fun c => c) (fun c => c) leftGlyEx rightNProtEx).2
      (by decide) (by decide) (by rfl)).1⟩

/-- Concrete instantiation of the alpha chirality theorem: building
cysteine with requested stereo `S` performs the inversion (L-cysteine is R,
so S requires the flip). -/
theorem initializeAlphaResidue_inversion_witness :
    (AlphaBuildOp.invert "CA" "HA" "C") ∈
      [AlphaBuildOp.deleteModel, AlphaBuildOp.loadFragment "cys",
       AlphaBuildOp.alterAtoms "all" "resv=1", AlphaBuildOp.alterAtoms "all" "chain=A",
       AlphaBuildOp.invert "CA" "HA" "C", AlphaBuildOp.renameAtoms 1] :=
  ((initializeAlphaResidue_inversion "C" "S"
      [AlphaBuildOp.deleteModel, AlphaBuildOp.loadFragment "cys",
       AlphaBuildOp.alterAtoms "all" "resv=1", AlphaBuildOp.alterAtoms "all" "chain=A",
       AlphaBuildOp.invert "CA" "HA" "C", AlphaBuildOp.renameAtoms 1]
      (by rfl)).1).mpr (by decide)

/-- The per-residue conditions enforced by `checkPeptide`: amide hydrogen
and previous-residue carbon for interior nitrogens (proline-type excepted),
oxygen and next-residue nitrogen for interior carbons, exactly one
CB/CB1/CA neighbour of the nitrogen unless the residue is a capping
`NME`/`ACE`/`BUT`, and exactly one CA neighbour of the carbon unless the
residue is `ACE` or `NME`. -/
def residueRules (m : Model) (maxres i : Nat) : Prop :=
  (i > 1 ∧ m.resnameOf i ∉ ["PRO", "DPRO"] → m.hcount i = 1 ∧ m.ccount i = 1) ∧
  (i < maxres → m.ocount i = 1 ∧ m.ncount i = 1) ∧
  (m.resnameOf i ∉ ["NME", "ACE", "BUT"] → m.cbcount i = 1) ∧
  (m.resnameOf i ∉ ["ACE", "NME"] → m.cacount i = 1)

/-- A guard-then-error step succeeds iff the guard is off and the rest
succeeds. -/
theorem errIf_ok_iff {c : Prop} [Decidable c] (msg : String) (rest : Except String Unit) :
    (if c then Except.error msg else rest) = .ok () ↔ ¬ c ∧ rest = .ok () := by
  split_ifs with h <;> simp [h]

/-- The per-residue check succeeds exactly when the residue rules hold. -/
theorem checkResidue_ok_iff (m : Model) (maxres i : Nat) :
    checkResidue m maxres i = .ok () ↔ residueRules m maxres i := by
  unfold checkResidue
  simp only [errIf_ok_iff]
  unfold residueRules
  constructor
  · rintro ⟨n1, n2, n3, n4, n5, n6, -⟩
    refine ⟨?_, ?_, ?_, ?_⟩
    · rintro ⟨hi1, hpro⟩
      constructor
      · by_contra hbad; exact n1 ⟨hi1, hpro, hbad⟩
      · by_contra hbad; exact n2 ⟨hi1, hpro, hbad⟩
    · intro hlt
      constructor
      · by_contra hbad; exact n3 ⟨hlt, hbad⟩
      · by_contra hbad; exact n4 ⟨hlt, hbad⟩
    · intro hex
      by_contra hbad
      exact n5 ⟨hbad, fun hx => hex (by simp [hx]), fun hx => hex (by simp [hx]),
        fun hx => hex (by simp [hx])⟩
    · intro hex
      by_contra hbad
      exact n6 ⟨hbad, fun hx => hex (by simp [hx]), fun hx => hex (by simp [hx])⟩
  · rintro ⟨r1, r2, r3, r4⟩
    refine ⟨?_, ?_, ?_, ?_, ?_, ?_, trivial⟩
    · rintro ⟨hi1, hpro, hbad⟩; exact hbad (r1 ⟨hi1, hpro⟩).1
    · rintro ⟨hi1, hpro, hbad⟩; exact hbad (r1 ⟨hi1, hpro⟩).2
    · rintro ⟨hlt, hbad⟩; exact hbad (r2 hlt).1
    · rintro ⟨hlt, hbad⟩; exact hbad (r2 hlt).2
    · rintro ⟨hbad, hn, ha, hb⟩
      exact hbad (r3 (by simp [hn, ha, hb]))
    · rintro ⟨hbad, ha, hn⟩
      exact hbad (r4 (by simp [ha, hn]))

/-- Unfolding equation for `checkResidues` on a non-empty list. -/
theorem checkResidues_cons (m : Model) (maxres i : Nat) (rest : List Nat) :
    checkResidues m maxres (i :: rest) =
      match checkResidue m maxres i with
      | .error e => .error e
      | .ok _ => checkResidues m maxres rest := rfl

/-- A residue list passes `checkResidues` exactly when every listed residue
passes its check. -/
theorem checkResidues_ok_iff (m : Model) (maxres : Nat) (l : List Nat) :
    checkResidues m maxres l = .ok () ↔
      ∀ i ∈ l, checkResidue m maxres i = .ok () := by
  induction l with
  | nil => simp [checkResidues]
  | cons i rest ih =>
    rw [checkResidues_cons]
    cases hc : checkResidue m maxres i with
    | error e =>
      simp only [List.mem_cons]
      constructor
      · intro h; exact absurd h (by simp)
      · intro h
        have := h i (Or.inl rfl)
        rw [hc] at this
        exact absurd this (by simp)
    | ok u =>
      cases u
      rw [ih]
      constructor
      · intro h j hj
        rcases List.mem_cons.mp hj with hj | hj
        · rw [hj, hc]
        · exact h j hj
      · intro h j hj
        exact h j (List.mem_cons_of_mem i hj)

/-- When a prefix of residues passes, `checkResidues` continues with the
rest. -/
theorem checkResidues_append (m : Model) (maxres : Nat) (l1 l2 : List Nat)
    (h : ∀ i ∈ l1, checkResidue m maxres i = .ok ()) :
    checkResidues m maxres (l1 ++ l2) = checkResidues m maxres l2 := by
  induction l1 with
  | nil => rfl
  | cons i rest ih =>
    have hi := h i (List.mem_cons_self i rest)
    rw [List.cons_append, checkResidues_cons, hi]
    exact ih fun j hj => h j (List.mem_cons_of_mem i hj)

/-- Decompose the checked residue range around a chosen residue `i`. -/
theorem range'_split (maxres i : Nat) (h1 : 1 ≤ i) (h2 : i ≤ maxres) :
    List.range' 1 maxres = List.range' 1 (i - 1) ++ i :: List.range' (i + 1) (maxres - i) := by
  have hi : i = 1 + (i - 1) := by omega
  have hcons : i :: List.range' (i + 1) (maxres - i) = List.range' i (maxres - i + 1) := by
    rw [List.range'_succ]
  rw [hcons]
  rw [show List.range' i (maxres - i + 1) = List.range' (1 + (i - 1)) (maxres - i + 1) by rw [← hi]]
  rw [List.range'_append_1]
  congr 1
  omega

/-- Claim C4 (amended): `checkPeptide` accepts a chain iff residue numbering
starts at 1 and every residue satisfies the per-residue rules, among them:
the backbone nitrogen has exactly one CB/CB1/CA neighbour with the capping
residues `ACE`, `BUT` and `NME` exempt, and the backbone carbon has exactly
one CA neighbour with only `ACE` and `NME` exempt (`BUT` is *not* exempt
from the carbon rule); on the first violating residue the error names that
residue and the offending count. -/
theorem checkPeptide_neighbor_rules (m : Model) :
    (checkPeptide m = .ok () ↔
      (m.minResi = 1 ∧ ∀ i ∈ List.range' 1 m.maxResi, residueRules m m.maxResi i)) ∧
    (∀ i, m.minResi = 1 → 1 ≤ i → i ≤ m.maxResi →
      (∀ j ∈ List.range' 1 (i - 1), residueRules m m.maxResi j) →
      (i > 1 ∧ m.resnameOf i ∉ ["PRO", "DPRO"] → m.hcount i = 1 ∧ m.ccount i = 1) →
      (i < m.maxResi → m.ocount i = 1 ∧ m.ncount i = 1) →
      m.resnameOf i ∉ ["NME", "ACE", "BUT"] → m.cbcount i ≠ 1 →
      checkPeptide m = .error ("Amide N in residue " ++ toString i ++ " has " ++
        toString (m.cbcount i) ++ " CA or CB neighbours.")) ∧
    (∀ i, m.minResi = 1 → 1 ≤ i → i ≤ m.maxResi →
      (∀ j ∈ List.range' 1 (i - 1), residueRules m m.maxResi j) →
      (i > 1 ∧ m.resnameOf i ∉ ["PRO", "DPRO"] → m.hcount i = 1 ∧ m.ccount i = 1) →
      (i < m.maxResi → m.ocount i = 1 ∧ m.ncount i = 1) →
      (m.resnameOf i ∉ ["NME", "ACE", "BUT"] → m.cbcount i = 1) →
      m.resnameOf i ∉ ["ACE", "NME"] → m.cacount i ≠ 1 →
      checkPeptide m = .error ("Amide C in residue " ++ toString i ++ " has " ++
        toString (m.cacount i) ++ " CA neighbours.")) := by
  refine ⟨?_, ?_, ?_⟩
  · unfold checkPeptide
    split_ifs with hmin
    · constructor
      · intro h; exact absurd h (by simp)
      · rintro ⟨h1, -⟩; exact absurd h1 hmin
    · push_neg at hmin
      rw [checkResidues_ok_iff]
      constructor
      · intro h; exact ⟨hmin, fun i hi => (checkResidue_ok_iff m m.maxResi i).mp (h i hi)⟩
      · rintro ⟨-, h⟩; exact fun i hi => (checkResidue_ok_iff m m.maxResi i).mpr (h i hi)
  · intro i hmin h1i himax hprev hH hON hexempt hcb
    have hexN : m.resnameOf i ≠ "NME" := fun hx => hexempt (by simp [hx])
    have hexA : m.resnameOf i ≠ "ACE" := fun hx => hexempt (by simp [hx])
    have hexB : m.resnameOf i ≠ "BUT" := fun hx => hexempt (by simp [hx])
    have hres : checkResidue m m.maxResi i =
        .error ("Amide N in residue " ++ toString i ++ " has " ++
          toString (m.cbcount i) ++ " CA or CB neighbours.") := by
      unfold checkResidue
      rw [if_neg (by tauto), if_neg (by tauto), if_neg (by tauto), if_neg (by tauto),
        if_pos ⟨hcb, hexN, hexA, hexB⟩]
    unfold checkPeptide
    rw [if_neg (by omega), range'_split m.maxResi i h1i himax,
      checkResidues_append m m.maxResi _ _
        (fun j hj => (checkResidue_ok_iff m m.maxResi j).mpr (hprev j hj)),
      checkResidues_cons, hres]
  · intro i hmin h1i himax hprev hH hON hcbok hexempt hca
    have hexA : m.resnameOf i ≠ "ACE" := fun hx => hexempt (by simp [hx])
    have hexN : m.resnameOf i ≠ "NME" := fun hx => hexempt (by simp [hx])
    have hres : checkResidue m m.maxResi i =
        .error ("Amide C in residue " ++ toString i ++ " has " ++
          toString (m.cacount i) ++ " CA neighbours.") := by
      unfold checkResidue
      rw [if_neg (by tauto), if_neg (by tauto), if_neg (by tauto), if_neg (by tauto),
        if_neg (fun hbad => hbad.1 (hcbok (by simp [hbad.2.1, hbad.2.2.1, hbad.2.2.2]))),
        if_pos ⟨hca, hexA, hexN⟩]
    unfold checkPeptide
    rw [if_neg (by omega), range'_split m.maxResi i h1i himax,
      checkResidues_append m m.maxResi _ _
        (fun j hj => (checkResidue_ok_iff m m.maxResi j).mpr (hprev j hj)),
      checkResidues_cons, hres]

/-- Concrete instantiation of the validator theorem: the minimal glycine
fragment passes (it satisfies all rules), and a fragment whose nitrogen has
no CB/CB1/CA neighbour is rejected with the error naming residue 1. -/
theorem checkPeptide_neighbor_rules_witness :
    checkPeptide leftGlyEx = .ok () ∧
    checkPeptide ⟨[⟨"N", "GLY", 1, (0, 0, 0)⟩, ⟨"C", "GLY", 1, (1, 0, 0)⟩,
        ⟨"CA", "GLY", 1, (2, 0, 0)⟩], [(1, 2)]⟩ =
      .error "Amide N in residue 1 has 0 CA or CB neighbours." :=
  ⟨((checkPeptide_neighbor_rules leftGlyEx).1).mpr
      ⟨by decide, by
        intro i hi
        have h1 : i = 1 := by simpa [leftGlyEx, Model.maxResi] using hi
        subst h1
        refine ⟨fun h => absurd h.1 (by decide), fun h => absurd h (by decide),
          fun _ => by decide, fun _ => by decide⟩⟩,
   by
    have h := (checkPeptide_neighbor_rules
      ⟨[⟨"N", "GLY", 1, (0, 0, 0)⟩, ⟨"C", "GLY", 1, (1, 0, 0)⟩,
        ⟨"CA", "GLY", 1, (2, 0, 0)⟩], [(1, 2)]⟩).2.1 1 (by decide) le_rfl (by decide)
      (by intro j hj; simp [Model.maxResi] at hj)
      (fun h => absurd h.1 (by decide)) (fun h => absurd h (by decide))
      (by decide) (by decide)
    simpa using h⟩

/-- Claim C4 counterexample: a `BUT` capping residue is *not* exempt from
the carbon rule — a butyrate residue whose carbon lacks a CA neighbour is
rejected by `checkPeptide` (with the carbon-rule error for residue 1), even
though the same fragment's missing CB/CB1/CA neighbour of the nitrogen was
excused by the nitrogen rule's `BUT` exemption. -/
theorem checkPeptide_but_not_exempt :
    checkPeptide ⟨[⟨"N", "BUT", 1, (0, 0, 0)⟩, ⟨"C", "BUT", 1, (1, 0, 0)⟩], []⟩ =
      .error "Amide C in residue 1 has 0 CA neighbours." ∧
    Model.cbcount ⟨[⟨"N", "BUT", 1, (0, 0, 0)⟩, ⟨"C", "BUT", 1, (1, 0, 0)⟩], []⟩ 1 = 0 := by
  exact ⟨rfl, rfl⟩

/-- Folding `max` over an appended list. -/
theorem foldr_max_append (l1 l2 : List Nat) :
    (l1 ++ l2).foldr max 0 = max (l1.foldr max 0) (l2.foldr max 0) := by
  induction l1 with
  | nil => simp
  | cons x xs ih => simp [List.foldr_cons, ih, Nat.max_assoc]

/-- Folding `max` after shifting every element of a non-empty list. -/
theorem foldr_max_map_add (l : List Nat) (k : Nat) (h : l ≠ []) :
    (l.map (· + k)).foldr max 0 = l.foldr max 0 + k := by
  induction l with
  | nil => exact absurd rfl h
  | cons x xs ih =>
    cases hxs : xs with
    | nil => simp
    | cons y ys =>
      subst hxs
      have ih2 := ih (by simp)
      calc ((x :: y :: ys).map (· + k)).foldr max 0
          = max (x + k) (((y :: ys).map (· + k)).foldr max 0) := rfl
        _ = max (x + k) ((y :: ys).foldr max 0 + k) := by rw [ih2]
        _ = max x ((y :: ys).foldr max 0) + k := max_add_add_right x _ k
        _ = (x :: y :: ys).foldr max 0 + k := rfl

/-- Every residue number in a model is bounded by `maxResi`. -/
theorem resi_le_maxResi (m : Model) (a : Atom) (ha : a ∈ m.atoms) :
    a.resi ≤ m.maxResi := by
  unfold Model.maxResi
  have : a.resi ∈ m.atoms.map Atom.resi := List.mem_map_of_mem Atom.resi ha
  revert this
  generalize m.atoms.map Atom.resi = l
  intro hmem
  induction l with
  | nil => cases hmem
  | cons x xs ih =>
    rcases List.mem_cons.mp hmem with h | h
    · subst h; exact Nat.le_max_left _ _
    · exact le_trans (ih h) (Nat.le_max_right _ _)

/-- `bondAllPairs` leaves the atom list unchanged. -/
theorem bondAllPairs_atoms (m : Model) (s1 s2 : Atom → Bool) :
    (bondAllPairs m s1 s2).atoms = m.atoms := rfl

/-- The atoms of a merged model. -/
theorem mergeModels_atoms (l r : Model) :
    (mergeModels l r).atoms = l.atoms ++ r.atoms := rfl

/-- The atoms of a coordinate-transformed model. -/
theorem mapCoords_atoms (T : Coord → Coord) (m : Model) :
    (mapCoords T m).atoms = m.atoms.map fun a => { a with coord := T a.coord } := rfl

/-- The atoms of a renumbered model. -/
theorem renumberBy_atoms (k : Nat) (m : Model) :
    (renumberBy k m).atoms = m.atoms.map fun a => { a with resi := a.resi + k } := rfl

/-- Claim C1 (amended): for fragments satisfying the fusion preconditions,
`left += right` yields a single chain of `m + n` residues in which residue
`i ≤ m` keeps exactly the atom names, residue name and bonds of residue `i`
of the left fragment, with coordinates equal to its image under the net
rigid motion `TL` applied by the left-hand fit (the left fragment is the
moving model of the first `pair_fit`, so its absolute coordinates are not
unchanged); residue `i > m` is residue `i − m` of the right fragment
renumbered by `+m` with coordinates moved by the right-hand fit `TR`; the
bond list is the left fragment's bonds, the right fragment's bonds shifted
past the left atoms, and new bonds that connect only the C of residue `m`
to the N of residue `m + 1`. -/
theorem iadd_chain_concatenation (TL TR : Coord → Coord) (left right : Model)
    (mres nres : Nat) (b : Bool)
    (hcp : left.isCProtected = false)
    (hguard : right.isNProtected = false ∨ right.startsWithProlineE = .ok true)
    (hpro : right.startsWithProlineE = .ok b)
    (hchkl : checkPeptide left = .ok ())
    (hchkr : checkPeptide right = .ok ())
    (hm : left.maxResi = mres)
    (hn : right.maxResi = nres)
    (hrr : ∀ a ∈ right.atoms, 1 ≤ a.resi)
    (hrne : right.atoms ≠ []) :
    ∃ fused, (iadd TL TR left right).2 = .ok fused ∧
      fused.maxResi = mres + nres ∧
      (∀ i, i ≤ mres → fused.atoms.filter (fun a => a.resi == i) =
        (left.atoms.filter (fun a => a.resi == i)).map
          (fun a => { a with coord := TL a.coord })) ∧
      (∀ i, mres < i → fused.atoms.filter (fun a => a.resi == i) =
        (right.atoms.filter (fun a => a.resi == i - mres)).map
          (fun a => { a with resi := a.resi + mres, coord := TR a.coord })) ∧
      (∃ junction, fused.bonds = (left.bonds ++
          right.bonds.map (fun bb => (bb.1 + left.atoms.length, bb.2 + left.atoms.length))) ++
          junction ∧
        ∀ bb ∈ junction, ∃ a1 a2, fused.atoms.get? bb.1 = some a1 ∧
          fused.atoms.get? bb.2 = some a2 ∧
          a1.resi = mres ∧ a1.name = "C" ∧ a2.resi = mres + 1 ∧ a2.name = "N") := by
  have hbody : iadd TL TR left right = iaddBody TL TR left right := by
    cases hnp : right.isNProtected with
    | false => simp [iadd, hcp, hnp]
    | true =>
      rcases hguard with hguard | hguard
      · rw [hguard] at hnp; cases hnp
      · simp [iadd, hcp, hnp, hguard]
  have hfused : (iadd TL TR left right).2 = .ok (bondAllPairs
      (mergeModels (mapCoords TL left) (mapCoords TR (renumberBy left.maxResi right)))
      (fun a => a.resi == left.maxResi && a.name == "C")
      (fun a => a.resi == left.maxResi + 1 && a.name == "N")) := by
    rw [hbody]
    unfold iaddBody
    rw [hchkl, hchkr, hpro]
  rw [hm] at hfused
  have hatoms : (bondAllPairs
      (mergeModels (mapCoords TL left) (mapCoords TR (renumberBy mres right)))
      (fun a => a.resi == mres && a.name == "C")
      (fun a => a.resi == mres + 1 && a.name == "N")).atoms =
      (left.atoms.map fun a => { a with coord := TL a.coord }) ++
        ((right.atoms.map fun a => { a with resi := a.resi + mres }).map
          fun a => { a with coord := TR a.coord }) := by
    rw [bondAllPairs_atoms, mergeModels_atoms, mapCoords_atoms, mapCoords_atoms,
      renumberBy_atoms]
  refine ⟨_, hfused, ?_, ?_, ?_, ?_⟩
  · -- residue count
    show List.foldr max 0 (List.map Atom.resi _) = mres + nres
    rw [hatoms, List.map_append, foldr_max_append, List.map_map, List.map_map, List.map_map]
    have hl : left.atoms.map (Atom.resi ∘ fun a => { a with coord := TL a.coord }) =
        left.atoms.map Atom.resi := rfl
    have hr : right.atoms.map ((Atom.resi ∘ fun a => { a with coord := TR a.coord }) ∘
        fun a => { a with resi := a.resi + mres }) =
        (right.atoms.map Atom.resi).map (· + mres) := by
      rw [List.map_map]
      rfl
    rw [hl, hr, foldr_max_map_add _ _ (by simpa using hrne)]
    have h1 : (left.atoms.map Atom.resi).foldr max 0 = mres := hm
    have h2 : (right.atoms.map Atom.resi).foldr max 0 = nres := hn
    rw [h1, h2, Nat.max_eq_right (by omega)]
    omega
  · -- left residues preserved up to TL
    intro i hi
    rw [hatoms, List.filter_append]
    have hrnil : (((right.atoms.map fun a => { a with resi := a.resi + mres }).map
        fun a => { a with coord := TR a.coord }).filter fun a => a.resi == i) = [] := by
      rw [List.filter_eq_nil]
      intro a ha
      simp only [List.map_map, List.mem_map, Function.comp] at ha
      obtain ⟨a0, ha0, rfl⟩ := ha
      have h1 : 1 ≤ a0.resi := hrr a0 ha0
      simp only [beq_iff_eq]
      show ¬ a0.resi + mres = i
      omega
    rw [hrnil, List.append_nil, List.filter_map]
    rfl
  · -- right residues renumbered and moved by TR
    intro i hi
    rw [hatoms, List.filter_append]
    have hlnil : ((left.atoms.map fun a => { a with coord := TL a.coord }).filter
        fun a => a.resi == i) = [] := by
      rw [List.filter_eq_nil]
      intro a ha
      simp only [List.mem_map] at ha
      obtain ⟨a0, ha0, rfl⟩ := ha
      have hle : a0.resi ≤ mres := hm ▸ resi_le_maxResi left a0 ha0
      simp only [beq_iff_eq]
      show ¬ a0.resi = i
      omega
    have hpred : ∀ a ∈ right.atoms,
        (((fun a : Atom => a.resi == i) ∘ ((fun a : Atom => { a with coord := TR a.coord }) ∘
          fun a : Atom => { a with resi := a.resi + mres })) a) =
          (a.resi == i - mres) := by
      intro a ha
      show (a.resi + mres == i) = (a.resi == i - mres)
      have h1 : 1 ≤ a.resi := hrr a ha
      cases hb1 : (a.resi + mres == i) <;> cases hb2 : (a.resi == i - mres) <;> try rfl
      · rw [beq_eq_false_iff_ne] at hb1
        rw [beq_iff_eq] at hb2
        omega
      · rw [beq_iff_eq] at hb1
        rw [beq_eq_false_iff_ne] at hb2
        omega
    rw [hlnil, List.nil_append, List.map_map, List.filter_map, List.filter_congr hpred]
    rfl
  · -- bonds: left's kept, right's shifted, plus the C(m)–N(m+1) junction
    have hlen : (mapCoords TL left).atoms.length = left.atoms.length := by
      simp [mapCoords]
    have hbonds0 : (bondAllPairs (mergeModels (mapCoords TL left)
        (mapCoords TR (renumberBy mres right)))
        (fun a => a.resi == mres && a.name == "C")
        (fun a => a.resi == mres + 1 && a.name == "N")).bonds =
        (left.bonds ++ right.bonds.map (fun bb => (bb.1 + (mapCoords TL left).atoms.length,
          bb.2 + (mapCoords TL left).atoms.length))) ++
        ((((mergeModels (mapCoords TL left)
            (mapCoords TR (renumberBy mres right))).atoms.enum.filter
            fun ia => ia.2.resi == mres && ia.2.name == "C").map Prod.fst).flatMap
          fun i1 => (((mergeModels (mapCoords TL left)
            (mapCoords TR (renumberBy mres right))).atoms.enum.filter
            fun ia => ia.2.resi == mres + 1 && ia.2.name == "N").map Prod.fst).map
            fun j2 => (i1, j2)) := rfl
    rw [hlen] at hbonds0
    refine ⟨_, hbonds0, ?_⟩
    intro bb hbb
    simp only [List.mem_flatMap, List.mem_map] at hbb
    obtain ⟨i1, hi1, j2, hj2, rfl⟩ := hbb
    simp only [List.mem_map, List.mem_filter] at hi1 hj2
    obtain ⟨⟨k1, a1⟩, ⟨hk1mem, hk1sel⟩, rfl⟩ := hi1
    obtain ⟨⟨k2, a2⟩, ⟨hk2mem, hk2sel⟩, rfl⟩ := hj2
    have hg1 := List.mem_enum_iff_get?.mp hk1mem
    have hg2 := List.mem_enum_iff_get?.mp hk2mem
    simp only [Bool.and_eq_true, beq_iff_eq] at hk1sel hk2sel
    exact ⟨a1, a2, hg1, hg2, hk1sel.1, hk1sel.2, hk2sel.1, hk2sel.2⟩

/-- Concrete instantiation of the fusion theorem: fusing two single-glycine
fragments (identity fit motions) yields a two-residue chain whose residue 1
is the left fragment's residue and whose residue 2 is the right fragment's
residue renumbered. -/
theorem iadd_chain_concatenation_witness :
    ∃ fused, (iadd (fun c => c) (fun c => c) leftGlyEx leftGlyEx).2 = .ok fused ∧
      fused.maxResi = 1 + 1 ∧
      (∀ i, i ≤ 1 → fused.atoms.filter (fun a => a.resi == i) =
        (leftGlyEx.atoms.filter (fun a => a.resi == i)).map
          (fun a => { a with coord := (fun c : Coord => c) a.coord })) ∧
      (∀ i, 1 < i → fused.atoms.filter (fun a => a.resi == i) =
        (leftGlyEx.atoms.filter (fun a => a.resi == i - 1)).map
          (fun a => { a with resi := a.resi + 1, coord := (fun c : Coord => c) a.coord })) ∧
      (∃ junction, fused.bonds = (leftGlyEx.bonds ++
          leftGlyEx.bonds.map (fun bb => (bb.1 + leftGlyEx.atoms.length,
            bb.2 + leftGlyEx.atoms.length))) ++ junction ∧
        ∀ bb ∈ junction, ∃ a1 a2, fused.atoms.get? bb.1 = some a1 ∧
          fused.atoms.get? bb.2 = some a2 ∧
          a1.resi = 1 ∧ a1.name = "C" ∧ a2.resi = 1 + 1 ∧ a2.name = "N") :=
  iadd_chain_concatenation (fun c => c) (fun c => c) leftGlyEx leftGlyEx 1 1 false
    (by decide) (Or.inl (by decide)) (by rfl) (by rfl) (by rfl) (by decide) (by decide)
    (by decide) (by decide)

/-- Claim C1 counterexample: the left fragment is the moving model of the
first `pair_fit` (`safe_pairfit`'s `model1`, "the model to be moved"), so
the left residues' absolute coordinates in the fused chain are the image of
the fit's rigid motion, not the original coordinates.  With a fit motion
that displaces the left fragment, residue 1 of the fused chain differs from
residue 1 of the left input (same atom names and bonds, moved coordinates),
refuting "unchanged coordinates" — even though every fusion precondition
holds. -/
theorem iadd_unchanged_coordinates_counterexample :
    ((iadd (fun _ => ((5 : ℚ), (5 : ℚ), (5 : ℚ))) (fun c => c) leftGlyEx leftGlyEx).2).toOption.map
        (fun f => f.atoms.filter fun a => a.resi == 1) ≠
      some (leftGlyEx.atoms.filter fun a => a.resi == 1) ∧
    Model.isCProtected leftGlyEx = false ∧ Model.isNProtected leftGlyEx = false ∧
    checkPeptide leftGlyEx = .ok () := by
  exact ⟨by decide, by decide, by decide, rfl⟩

/-! ## The sequence grammar (`BetaPeptide.parseBetaPeptideSequence`)

The Python parser is an anchored regular expression (verbose mode) over one
comma-separated token.  Its alternatives have pairwise disjoint match sets
distinguished by their first characters, and every `[A-Z]{1,2}` side-chain
group is followed by a character that no side-chain letter can match, so
the regex engine's ordered alternation with backtracking is equivalent to
the deterministic recursive-descent parser embedded here (maximal munch for
the side-chain letters, with explicit fallback for the optional third
angle).  One remark: the verbose-mode float pattern contains the stray
literal `or` (the line `| or` inside the mantissa alternation is not a
comment), so `or` is accepted as a mantissa and only rejected later by
`float()`; this is embedded faithfully in `Mantissa.orLit`/`floatVal`. -/

/-- Python `\s` on the ASCII inputs of the grammar. -/
def isWsChar (c : Char) : Bool :=
  c = ' ' || c = '\t' || c = '\n' || c = '\r' || c = Char.ofNat 11 || c = Char.ofNat 12

/-- `[A-Z]`. -/
def isUpperAZ (c : Char) : Bool := 'A' ≤ c && c ≤ 'Z'

/-- `[a-z]`. -/
def isLowerAZ (c : Char) : Bool := 'a' ≤ c && c ≤ 'z'

/-- `[0-9]`. -/
def isDigitChar (c : Char) : Bool := '0' ≤ c && c ≤ '9'

/-- Python `str.strip()`. -/
def pyStrip (cs : List Char) : List Char :=
  ((cs.dropWhile isWsChar).reverse.dropWhile isWsChar).reverse

/-- The mantissa alternatives of the float pattern:
`(\d+(\.\d*)?) | or | (\.\d+)`. -/
inductive Mantissa where
  | intFrac (ip : List Char) (fp : Option (List Char))
  | orLit
  | fracOnly (fp : List Char)
  deriving DecidableEq, Repr

/-- A matched float substring: optional sign (with the whitespace the
pattern `[+-]\s*` allows after it), mantissa, optional exponent. -/
structure FloatTok where
  sign : Option Char
  signWs : Bool
  mant : Mantissa
  exp : Option (Option Char × List Char)
  deriving DecidableEq, Repr

/-- Parse the mantissa (`\d+(\.\d*)?`, the stray `or`, or `\.\d+`). -/
def parseMantissa (cs : List Char) : Option (Mantissa × List Char) :=
  match cs with
  | [] => none
  | c :: rest =>
    if isDigitChar c then
      let ip := cs.takeWhile isDigitChar
      let cs2 := cs.dropWhile isDigitChar
      match cs2 with
      | '.' :: rest2 =>
        some (.intFrac ip (some (rest2.takeWhile isDigitChar)), rest2.dropWhile isDigitChar)
      | _ => some (.intFrac ip none, cs2)
    else if c = 'o' then
      match rest with
      | 'r' :: rest2 => some (.orLit, rest2)
      | _ => none
    else if c = '.' then
      let fp := rest.takeWhile isDigitChar
      if fp.isEmpty then none
      else some (.fracOnly fp, rest.dropWhile isDigitChar)
    else none

/-- Parse the optional sign `([+-]\s*)?`: the sign character, whether
whitespace followed it, and the rest. -/
def parseSign : List Char → Option Char × Bool × List Char
  | c :: rest =>
    if c = '+' || c = '-' then
      (some c, !((rest.takeWhile isWsChar).isEmpty), rest.dropWhile isWsChar)
    else ((none : Option Char), false, c :: rest)
  | [] => (none, false, ([] : List Char))

/-- Parse the optional exponent `([eE][+-]?\d+)?`: the exponent sign and
digits when present, and the rest. -/
def parseExp (cs : List Char) : Option (Option Char × List Char) × List Char :=
  match cs with
  | c :: rest =>
    if c = 'e' || c = 'E' then
      match rest with
      | c2 :: rest2 =>
        if c2 = '+' || c2 = '-' then
          let ds := rest2.takeWhile isDigitChar
          if ds.isEmpty then (none, cs)
          else (some (some c2, ds), rest2.dropWhile isDigitChar)
        else
          let ds := rest.takeWhile isDigitChar
          if ds.isEmpty then (none, cs)
          else (some (none, ds), rest.dropWhile isDigitChar)
      | [] => (none, cs)
    else (none, cs)
  | [] => (none, [])

/-- Parse one float token: `([+-]\s*)? mantissa ([eE][+-]?\d+)?`. -/
def parseFloat (cs : List Char) : Option (FloatTok × List Char) :=
  let (sign, signWs, cs1) := parseSign cs
  match parseMantissa cs1 with
  | none => none
  | some (m, cs2) =>
    let (e, cs3) := parseExp cs2
    some (⟨sign, signWs, m, e⟩, cs3)

/-- Numeric value of a decimal digit character. -/
def digitVal (c : Char) : Nat := c.toNat - 48

/-- Value of a digit string, most significant first. -/
def digitsVal (cs : List Char) : Nat := cs.foldl (fun n c => 10 * n + digitVal c) 0

/-- The exact rational value of a decimal float with optional exponent:
`±(intDigits.fracDigits) × 10^e`, built with `Rat.divInt` over integers. -/
def floatValCore (neg : Bool) (intDigits fracDigits : List Char) (e : Int) : ℚ :=
  let base : Int := (digitsVal intDigits * 10 ^ fracDigits.length + digitsVal fracDigits : Nat)
  let num : Int := if neg then -base else base
  if 0 ≤ e then Rat.divInt (num * 10 ^ e.toNat) ((10 : Int) ^ fracDigits.length)
  else Rat.divInt num ((10 : Int) ^ fracDigits.length * (10 : Int) ^ e.natAbs)

/-- Python `float()` applied to a matched float substring: rejects the
stray `or` mantissa and a sign separated from the mantissa by whitespace,
and otherwise yields the exact decimal value. -/
def floatVal (t : FloatTok) : Except String ℚ :=
  if t.signWs then .error "ValueError: could not convert string to float"
  else
    let neg := t.sign = some '-'
    let e : Int :=
      match t.exp with
      | none => 0
      | some (sgn, ds) =>
        if sgn = some '-' then -(digitsVal ds : Int) else (digitsVal ds : Int)
    match t.mant with
    | .orLit => .error "ValueError: could not convert string to float: or"
    | .intFrac ip fp => .ok (floatValCore neg ip (fp.getD []) e)
    | .fracOnly fp => .ok (floatValCore neg [] fp e)

/-- The optional torsion specification after a residue designation. -/
inductive TorsionSpec where
  | noSpec
  | angles (phi theta : FloatTok) (psi : Option FloatTok)
  | ssref (name : String)
  deriving DecidableEq, Repr

/-- An opening curly brace. -/
def lbrace : Char := Char.ofNat 123

/-- A closing curly brace. -/
def rbrace : Char := Char.ofNat 125

/-- The secondary-structure-name character class `[-a-zA-Z0-9_+ ]`. -/
def isSsNameChar (c : Char) : Bool :=
  c = '-' || isUpperAZ c || isLowerAZ c || isDigitChar c || c = '_' || c = '+' || c = ' '

/-- Parse the bracketed angle list after `[`:
`\s* phi \s+ theta (\s+ psi)? \s* ]` then end of token.  When the third
angle parses but the closing bracket does not follow, the regex backtracks
to the two-angle reading, embedded here as the explicit fallback. -/
def parseBracket (cs : List Char) : Option TorsionSpec :=
  match parseFloat (cs.dropWhile isWsChar) with
  | none => none
  | some (phi, cs2) =>
    if (cs2.takeWhile isWsChar).isEmpty then none
    else
      match parseFloat (cs2.dropWhile isWsChar) with
      | none => none
      | some (theta, cs4) =>
        let noPsi : Option TorsionSpec :=
          if cs4.dropWhile isWsChar = [']'] then some (.angles phi theta none) else none
        if (cs4.takeWhile isWsChar).isEmpty then noPsi
        else
          match parseFloat (cs4.dropWhile isWsChar) with
          | some (psi, cs6) =>
            if cs6.dropWhile isWsChar = [']'] then some (.angles phi theta (some psi))
            else noPsi
          | none => noPsi

/-- Parse the braced secondary-structure reference after `{`:
`\s* [-a-zA-Z0-9_+ ]+ \s* }` then end of token (the greedy name class
includes spaces, so internal and trailing spaces belong to the name). -/
def parseBrace (cs : List Char) : Option TorsionSpec :=
  let cs1 := cs.dropWhile isWsChar
  let nm := cs1.takeWhile isSsNameChar
  let cs2 := cs1.dropWhile isSsNameChar
  if nm.isEmpty then none
  else
    match cs2.dropWhile isWsChar with
    | [c] => if c = rbrace then some (.ssref nm.asString) else none
    | _ => none

/-- Parse the optional torsion suffix:
`\s* ( [angles] | {ssname} )? $`. -/
def parseSuffix (cs : List Char) : Option TorsionSpec :=
  match cs.dropWhile isWsChar with
  | [] => some .noSpec
  | '[' :: rest => parseBracket rest
  | c :: rest => if c = lbrace then parseBrace rest else none

/-- One matched residue designation (the named groups of the regex that
identify the alternative and its captures). -/
inductive HeadMatch where
  | ace
  | but
  | nme
  | achc (s2 s3 : Char)
  | acpc (s2 s3 : Char)
  | beta23 (s2 s3 : Char) (sc2 sc3 : List Char)
  | mono (st : Char) (kind2 : Bool) (sc : List Char)
  | bare
  | alpha (st : Char) (sc : List Char)
  deriving DecidableEq, Repr

/-- `[RS]`. -/
def isRS (c : Char) : Bool := c = 'R' || c = 'S'

/-- `[RSLD]`. -/
def isRSLD (c : Char) : Bool := c = 'R' || c = 'S' || c = 'L' || c = 'D'

/-- A side-chain code `[A-Z]{1,2}` by maximal munch (equivalent to the
regex in every grammar position, since the following character is never an
upper-case letter). -/
def takeSC (cs : List Char) : Option (List Char × List Char) :=
  let sc := cs.takeWhile isUpperAZ
  if sc.length = 1 || sc.length = 2 then some (sc, cs.dropWhile isUpperAZ) else none

/-- Parse the suffix of a `(2x3y)`-prefixed designation: the ACHC and ACPC
alternatives and the full B23 alternative. -/
def parseHeadCaps (s2 s3 : Char) (cs : List Char) : Option (HeadMatch × List Char) :=
  match cs with
  | 'A' :: 'C' :: 'H' :: 'C' :: rest2 => some (.achc s2 s3, rest2)
  | 'A' :: 'C' :: 'P' :: 'C' :: rest2 => some (.acpc s2 s3, rest2)
  | 'B' :: '2' :: '3' :: 'h' :: '(' :: '2' :: rest2 =>
    match takeSC rest2 with
    | some (sc2, '3' :: rest3) =>
      match takeSC rest3 with
      | some (sc3, ')' :: rest4) => some (.beta23 s2 s3 sc2 sc3, rest4)
      | _ => none
    | _ => none
  | _ => none

/-- Parse a `(x)`-prefixed designation after the opening parenthesis: the
B2/B3 alternatives and the alpha alternative. -/
def parseHeadMono (cs : List Char) : Option (HeadMatch × List Char) :=
  match cs with
  | st :: ')' :: 'B' :: k :: 'h' :: rest =>
    if isRS st && (k = '2' || k = '3') then
      match takeSC rest with
      | some (sc, rest2) => some (.mono st (k = '2') sc, rest2)
      | none => none
    else none
  | st :: ')' :: 'A' :: rest =>
    if isRSLD st then
      match takeSC rest with
      | some (sc, rest2) => some (.alpha st sc, rest2)
      | none => none
    else none
  | _ => none

/-- Parse a parenthesised designation after the opening parenthesis: the
`(2x3y)` family first, then (as the regex's ordered alternation would on a
stereo-class mismatch) the single-stereo family; the alternatives are
mutually exclusive, since a `(2x3y)` prefix can never also be a `(x)`
prefix followed by `B.h` or `A`. -/
def parseHeadParen (cs : List Char) : Option (HeadMatch × List Char) :=
  match cs with
  | '2' :: s2 :: '3' :: s3 :: ')' :: rest =>
    if isRS s2 && isRS s3 then parseHeadCaps s2 s3 rest
    else parseHeadMono ('2' :: s2 :: '3' :: s3 :: ')' :: rest)
  | rest => parseHeadMono rest

/-- Parse the residue designation at the start of a token. -/
def parseHead (cs : List Char) : Option (HeadMatch × List Char) :=
  match cs with
  | 'A' :: 'C' :: 'E' :: rest => some (.ace, rest)
  | 'B' :: 'U' :: 'T' :: rest => some (.but, rest)
  | 'N' :: 'M' :: 'E' :: rest => some (.nme, rest)
  | 'B' :: 'A' :: rest => some (.bare, rest)
  | '(' :: rest0 => parseHeadParen rest0
  | _ => none

/-- The structured residue descriptor built by the parser (the dict with
keys kind/sidechain2/stereo2/sidechain3/stereo3/dihedrals; list and tuple
containers of Python are both embedded as lists, and a dihedral entry can
be `none` because alpha-type database entries carry `None` as their middle
angle). -/
structure ResidueDescriptor where
  kind : String
  sidechain2 : String
  stereo2 : String
  sidechain3 : String
  stereo3 : String
  dihedrals : Option (List (Option ℚ))
  deriving DecidableEq, Repr

/-- The dihedral data of a token (lines 976–983 of the source): explicit
angle lists via `float()`, or a database lookup for a braced name. -/
def resolveDihedrals (store : SSStore) (t : TorsionSpec) :
    Except String (Option (List (Option ℚ))) :=
  match t with
  | .angles phi theta (some psi) => do
    let p ← floatVal phi
    let th ← floatVal theta
    let ps ← floatVal psi
    pure (some [some p, some th, some ps])
  | .angles phi theta none => do
    let p ← floatVal phi
    let th ← floatVal theta
    pure (some [some p, some th])
  | .ssref name =>
    match dihedralsOf store name with
    | .ok e => .ok (some [some e.phi, e.theta, some e.psi])
    | .error err => .error err
  | .noSpec => .ok none

/-- `true` when a dihedral list is present with a length other than `n`. -/
def dihLenNe (d : Option (List (Option ℚ))) (n : Nat) : Bool :=
  match d with
  | some l => l.length != n
  | none => false

/-- The branch dispatch of the parser (lines 984–1035): build the residue
dict, enforcing the per-class dihedral count (none for ACPC/ACHC) and
rejecting torsion data on capping groups. -/
def buildDescriptor (aminoacid : String) (h : HeadMatch)
    (dihedrals : Option (List (Option ℚ))) : Except String ResidueDescriptor :=
  match h with
  | .bare =>
    if dihLenNe dihedrals 3 then
      .error ("Not enough dihedral angles specified in residue " ++ aminoacid)
    else .ok ⟨"BA", "G", "", "G", "", dihedrals⟩
  | .alpha st sc =>
    if dihLenNe dihedrals 2 then
      .error ("Too many dihedral angles specified in residue " ++ aminoacid)
    else .ok ⟨"A", sc.asString, String.mk [st], "", "", dihedrals⟩
  | .mono st kind2 sc =>
    if dihLenNe dihedrals 3 then
      .error ("Not enough dihedral angles specified in residue " ++ aminoacid)
    else if kind2 then .ok ⟨"B2", sc.asString, String.mk [st], "G", "", dihedrals⟩
    else .ok ⟨"B3", "G", "", sc.asString, String.mk [st], dihedrals⟩
  | .ace =>
    if dihedrals.isSome then .error "Residue ACE does not supports custom dihedrals."
    else .ok ⟨"ACE", "", "", "", "", dihedrals⟩
  | .but =>
    if dihedrals.isSome then .error "Residue BUT does not supports custom dihedrals."
    else .ok ⟨"BUT", "", "", "", "", dihedrals⟩
  | .nme =>
    if dihedrals.isSome then .error "Residue NME does not supports custom dihedrals."
    else .ok ⟨"NME", "", "", "", "", dihedrals⟩
  | .acpc s2 s3 => .ok ⟨"ACPC", "", String.mk [s2], "", String.mk [s3], dihedrals⟩
  | .achc s2 s3 => .ok ⟨"ACHC", "", String.mk [s2], "", String.mk [s3], dihedrals⟩
  | .beta23 s2 s3 sc2 sc3 =>
    if dihLenNe dihedrals 3 then
      .error ("Not enough dihedral angles specified in residue " ++ aminoacid)
    else .ok ⟨"B23", sc2.asString, String.mk [s2], sc3.asString, String.mk [s3], dihedrals⟩

/-- Parse one comma-separated token: strip it, match the anchored regex
(designation, then optional torsion suffix, then end) and run the branch
dispatch; a non-matching token is the `Invalid amino-acid designation`
`ValueError`. -/
def parseAminoAcid (store : SSStore) (token : String) : Except String ResidueDescriptor :=
  let cs := pyStrip token.data
  match parseHead cs with
  | none => .error ("Invalid amino-acid designation: " ++ cs.asString)
  | some (h, rest) =>
    match parseSuffix rest with
    | none => .error ("Invalid amino-acid designation: " ++ cs.asString)
    | some t =>
      match resolveDihedrals store t with
      | .error e => .error e
      | .ok dih => buildDescriptor cs.asString h dih

/-- Parse every token of a pre-split sequence, failing on the first bad
token. -/
def parseSequenceTokens (store : SSStore) :
    List (List Char) → Except String (List ResidueDescriptor)
  | [] => .ok []
  | t :: rest =>
    match parseAminoAcid store t.asString with
    | .error e => .error e
    | .ok d =>
      match parseSequenceTokens store rest with
      | .error e => .error e
      | .ok ds => .ok (d :: ds)

/-- Embedding of `BetaPeptide.parseBetaPeptideSequence`: split the sequence
string on commas and parse each token. -/
def parseBetaPeptideSequence (store : SSStore) (sequencestr : String) :
    Except String (List ResidueDescriptor) :=
  parseSequenceTokens store (splitOnChar ',' sequencestr.data)

/-- Claim C5: the parser maps `(S)B3hV[-140.3 66.5 -136.8]` to a B3
descriptor with stereo3 S, sidechain3 V and those three angles; maps `ACE`
to an ACE descriptor with no dihedrals; rejects `ACE[10 20]` because
capping groups refuse torsion data; and maps `(2S3R)B23h(2A3L){H14M}` to a
B23 descriptor with stereo2 S, stereo3 R, sidechain2 A, sidechain3 L and
the H14M angles resolved from the secondary-structure database. -/
theorem parseBetaPeptideSequence_examples :
    parseBetaPeptideSequence DEFAULT_HELIXTYPES "(S)B3hV[-140.3 66.5 -136.8]" =
      .ok [⟨"B3", "G", "", "V", "S",
        some [some (decimal (-1403) 1), some (decimal 665 1), some (decimal (-1368) 1)]⟩] ∧
    parseBetaPeptideSequence DEFAULT_HELIXTYPES "ACE" =
      .ok [⟨"ACE", "", "", "", "", none⟩] ∧
    parseBetaPeptideSequence DEFAULT_HELIXTYPES "ACE[10 20]" =
      .error "Residue ACE does not supports custom dihedrals." ∧
    parseBetaPeptideSequence DEFAULT_HELIXTYPES "(2S3R)B23h(2A3L)\x7bH14M\x7d" =
      .ok [⟨"B23", "A", "S", "L", "R",
        some [some (decimal (-1403) 1), some (decimal 665 1), some (decimal (-1368) 1)]⟩] := by
  exact ⟨rfl, rfl, rfl, rfl⟩

/-! ## The GUI descriptor class (`betafabgui2/sequencemodel.py`)

`AminoAcidResidue.__init__` validates a descriptor and `__str__` renders it
back to the sequence grammar's canonical token form. -/

/-- The residue kinds known to `AminoAcidResidue`. -/
def KINDS : List String := ["BA", "B2", "B3", "B23", "A", "ACE", "NME", "BUT", "ACPC", "ACHC"]

/-- Keys of the `BetaPeptide.SIDECHAINS` table. -/
def SIDECHAIN_KEYS : List String := SIDECHAINS.map Prod.fst

/-- The validated state of an `AminoAcidResidue` (fields in constructor
order). -/
structure AminoAcidResidue where
  kind : String
  stereo2 : String
  sidechain2 : String
  stereo3 : String
  sidechain3 : String
  dihedrals : Option (List (Option ℚ))
  deriving DecidableEq, Repr

/-- Embedding of `AminoAcidResidue.__init__` on an already-structured
dihedral list (the constructor's string branch, which resolves a
secondary-structure name, is never reached from a parsed descriptor):
validate the kind, the stereo descriptors, the side-chain codes against
`SIDECHAINS`, and the per-class dihedral count; capping kinds clear all
fields. -/
def mkAminoAcidResidue (kind stereo2 sidechain2 stereo3 sidechain3 : String)
    (dihedrals : Option (List (Option ℚ))) : Except String AminoAcidResidue :=
  if !(KINDS.contains kind) then
    .error ("Unknown residue kind: " ++ kind)
  else if ["ACE", "NME", "BUT"].contains kind then
    .ok ⟨kind, "", "", "", "", none⟩
  else if !(["R", "S", "D", "L"].contains stereo2) && ["A"].contains kind then
    .error ("Unknown absolute conformation designation: " ++ stereo2)
  else if !(["R", "S"].contains stereo2) && ["B2", "B23", "ACPC", "ACHC"].contains kind then
    .error ("Unknown absolute conformation designation: " ++ stereo2)
  else if !(["R", "S"].contains stereo3) && ["B3", "B23", "ACPC", "ACHC"].contains kind then
    .error ("Unknown absolute conformation designation: " ++ stereo3)
  else if !(SIDECHAIN_KEYS.contains sidechain2) && ["B2", "B23", "A"].contains kind then
    .error ("Unknown sidechain: " ++ sidechain2)
  else if !(SIDECHAIN_KEYS.contains sidechain3) && ["B3", "B23"].contains kind then
    .error ("Unknown sidechain: " ++ sidechain3)
  else if ["B2", "B23", "B3", "BA", "ACPC", "ACHC"].contains kind && dihLenNe dihedrals 3 then
    .error ("Residue of kind " ++ kind ++ " needs 3 dihedrals!")
  else if ["A"].contains kind && dihLenNe dihedrals 2 then
    .error ("Residue of kind " ++ kind ++ " needs 2 dihedrals!")
  else .ok ⟨kind, stereo2, sidechain2, stereo3, sidechain3, dihedrals⟩

/-- The `stereo2` property getter. -/
def AminoAcidResidue.stereo2get (r : AminoAcidResidue) : String :=
  if ["B2", "B23", "A", "ACPC", "ACHC"].contains r.kind then r.stereo2 else ""

/-- The `stereo3` property getter. -/
def AminoAcidResidue.stereo3get (r : AminoAcidResidue) : String :=
  if ["B3", "B23", "ACPC", "ACHC"].contains r.kind then r.stereo3 else ""

/-- The `sidechain2` property getter. -/
def AminoAcidResidue.sidechain2get (r : AminoAcidResidue) : String :=
  if ["B2", "B23", "A"].contains r.kind then r.sidechain2 else ""

/-- The `sidechain3` property getter. -/
def AminoAcidResidue.sidechain3get (r : AminoAcidResidue) : String :=
  if ["B3", "B23"].contains r.kind then r.sidechain3 else ""

/-- Digit character of a value below ten. -/
def digitChar (d : Nat) : Char := Char.ofNat (48 + d)

/-- Decimal digits of a natural number, most significant first (fuel-based
so the kernel can evaluate it; `natDigits` supplies fuel `n + 1`, which
always suffices because the argument drops by a factor of ten per step). -/
def natDigitsAux : Nat → Nat → List Char
  | 0, _ => []
  | fuel + 1, n =>
    if n < 10 then [digitChar n]
    else natDigitsAux fuel (n / 10) ++ [digitChar (n % 10)]

/-- Decimal digits of a natural number, most significant first. -/
def natDigits (n : Nat) : List Char := natDigitsAux (n + 1) n

/-- Left-pad a digit string with zeros to the six fractional places that
`'{:f}'` always prints. -/
def pad6 (cs : List Char) : List Char := List.replicate (6 - cs.length) '0' ++ cs

/-- The value scaled to millionths, exact whenever the denominator divides
`10^6`. -/
def scaled6 (q : ℚ) : Int := q.num * 1000000 / (q.den : Int)

/-- Python `'{:f}'.format` on a float of exact value `q`: optional sign,
integer digits, decimal point, six fractional digits.  Faithful for every
value exactly representable with six fractional digits (elsewhere the
format rounds the double's decimal expansion; the round-trip theorem only
concerns the exact case). -/
def formatFixed6 (q : ℚ) : List Char :=
  let n : Int := scaled6 q
  (if q < 0 then ['-'] else []) ++ natDigits (n.natAbs / 1000000) ++
    '.' :: pad6 (natDigits (n.natAbs % 1000000))

/-- Join strings with single spaces (`' '.join`). -/
def joinSpace : List (List Char) → List Char
  | [] => []
  | [x] => x
  | x :: y :: rest => x ++ ' ' :: joinSpace (y :: rest)

/-- The bracketed dihedral suffix of `__str__`: `'[' + ' '.join(format(d)
for d in dihedrals if d is not None) + ']'`, empty when there are no
dihedrals. -/
def formatDihedrals (d : Option (List (Option ℚ))) : List Char :=
  match d with
  | none => []
  | some l => '[' :: (joinSpace ((l.filterMap id).map formatFixed6) ++ [']'])

/-- Embedding of `AminoAcidResidue.__str__` (with `with_dih=True`): the
canonical token of each kind, via the property getters, followed by the
dihedral suffix; an unknown kind raises. -/
def strAminoAcidResidue (r : AminoAcidResidue) : Except String String :=
  let dih := formatDihedrals r.dihedrals
  if r.kind = "BA" then .ok (("BA".data ++ dih).asString)
  else if r.kind = "B2" then
    .ok (('(' :: (r.stereo2get.data ++ ')' :: ("B2h".data ++ r.sidechain2get.data ++ dih))).asString)
  else if r.kind = "B3" then
    .ok (('(' :: (r.stereo3get.data ++ ')' :: ("B3h".data ++ r.sidechain3get.data ++ dih))).asString)
  else if r.kind = "B23" then
    .ok (('(' :: '2' :: (r.stereo2get.data ++ '3' :: (r.stereo3get.data ++ ')' :: ("B23h(2".data ++
      r.sidechain2get.data ++ '3' :: (r.sidechain3get.data ++ ')' :: dih))))).asString)
  else if r.kind = "ACPC" then
    .ok (('(' :: '2' :: (r.stereo2get.data ++ '3' :: (r.stereo3get.data ++ ')' ::
      ("ACPC".data ++ dih)))).asString)
  else if r.kind = "ACHC" then
    .ok (('(' :: '2' :: (r.stereo2get.data ++ '3' :: (r.stereo3get.data ++ ')' ::
      ("ACHC".data ++ dih)))).asString)
  else if r.kind = "A" then
    .ok (('(' :: (r.stereo2get.data ++ ')' :: ('A' :: (r.sidechain2get.data ++ dih)))).asString)
  else if r.kind = "ACE" then .ok "ACE"
  else if r.kind = "NME" then .ok "NME"
  else if r.kind = "BUT" then .ok "BUT"
  else .error ("Invalid kind: " ++ r.kind)

/-- Render a parsed descriptor to its canonical string: construct the
`AminoAcidResidue` (constructor-order arguments) and take its string
form. -/
def renderResidue (d : ResidueDescriptor) : Except String String :=
  match mkAminoAcidResidue d.kind d.stereo2 d.sidechain2 d.stereo3 d.sidechain3 d.dihedrals with
  | .error e => .error e
  | .ok r => strAminoAcidResidue r

/-- Claim C6 counterexample: the parser accepts `(2S3R)ACPC[1 2]` — the
ACPC/ACHC branch never checks the dihedral count — but the renderer's
constructor rejects the resulting descriptor (kind ACPC needs three
dihedrals), so the round trip `parse ∘ render ∘ parse = parse` fails on
this valid token: there is no rendered string to reparse. -/
theorem parse_render_roundtrip_counterexample :
    parseAminoAcid DEFAULT_HELIXTYPES "(2S3R)ACPC[1 2]" =
      .ok ⟨"ACPC", "", "S", "", "R", some [some (decimal 1 0), some (decimal 2 0)]⟩ ∧
    renderResidue ⟨"ACPC", "", "S", "", "R", some [some (decimal 1 0), some (decimal 2 0)]⟩ =
      .error "Residue of kind ACPC needs 3 dihedrals!" := by
  exact ⟨rfl, rfl⟩

/-! ## Round-trip infrastructure: decimal digit strings -/

/-- The ten digit characters. -/
def digitChars : List Char := ['0', '1', '2', '3', '4', '5', '6', '7', '8', '9']

/-- `digitChar` lands in `digitChars`. -/
theorem digitChar_mem (d : Nat) (h : d < 10) : digitChar d ∈ digitChars := by
  interval_cases d <;> decide

/-- More fuel does not change `natDigitsAux` once it suffices. -/
theorem natDigitsAux_congr : ∀ n f1 f2, n < f1 → n < f2 →
    natDigitsAux f1 n = natDigitsAux f2 n := by
  intro n
  induction n using Nat.strong_induction_on with
  | _ n ih =>
    intro f1 f2 h1 h2
    match f1, f2 with
    | g1 + 1, g2 + 1 =>
      by_cases hn : n < 10
      · simp [natDigitsAux, hn]
      · have hlt : n / 10 < n := Nat.div_lt_self (by omega) (by omega)
        simp only [natDigitsAux, if_neg hn]
        rw [ih (n / 10) hlt g1 g2 (by omega) (by omega)]

/-- `natDigitsAux` computes `natDigits` for any sufficient fuel. -/
theorem natDigitsAux_eq (fuel n : Nat) (h : n < fuel) :
    natDigitsAux fuel n = natDigits n :=
  natDigitsAux_congr n fuel (n + 1) h (Nat.lt_succ_self n)

/-- The recursion equation of `natDigits`. -/
theorem natDigits_eq (n : Nat) :
    natDigits n = if n < 10 then [digitChar n]
      else natDigits (n / 10) ++ [digitChar (n % 10)] := by
  by_cases hn : n < 10
  · rw [if_pos hn]
    show (if n < 10 then [digitChar n] else natDigitsAux n (n / 10) ++ [digitChar (n % 10)]) = _
    rw [if_pos hn]
  · rw [if_neg hn]
    have hlt : n / 10 < n := Nat.div_lt_self (by omega) (by omega)
    show (if n < 10 then [digitChar n] else natDigitsAux n (n / 10) ++ [digitChar (n % 10)]) = _
    rw [if_neg hn, natDigitsAux_eq n (n / 10) hlt]

/-- `natDigits` is never empty. -/
theorem natDigits_ne_nil (n : Nat) : natDigits n ≠ [] := by
  rw [natDigits_eq]
  split
  · simp
  · simp

/-- Every character of `natDigits` is a digit character. -/
theorem natDigits_mem (n : Nat) : ∀ c ∈ natDigits n, c ∈ digitChars := by
  induction n using Nat.strong_induction_on with
  | _ n ih =>
    intro c hc
    rw [natDigits_eq] at hc
    by_cases hn : n < 10
    · rw [if_pos hn] at hc
      rcases List.mem_singleton.mp hc with rfl
      exact digitChar_mem n hn
    · rw [if_neg hn] at hc
      rcases List.mem_append.mp hc with hc | hc
      · exact ih (n / 10) (Nat.div_lt_self (by omega) (by omega)) c hc
      · rcases List.mem_singleton.mp hc with rfl
        exact digitChar_mem _ (Nat.mod_lt n (by omega))

/-- Digit characters satisfy `isDigitChar`. -/
theorem digitChars_isDigit (c : Char) (h : c ∈ digitChars) : isDigitChar c = true := by
  fin_cases h <;> decide

/-- Digit characters are not whitespace. -/
theorem digitChars_not_ws (c : Char) (h : c ∈ digitChars) : isWsChar c = false := by
  fin_cases h <;> decide

/-- Digit value of a digit character. -/
theorem digitVal_digitChar (d : Nat) (h : d < 10) : digitVal (digitChar d) = d := by
  interval_cases d <;> decide

/-- Closed form of the digit-value fold from an arbitrary accumulator. -/
theorem digitsVal_foldl (l : List Char) : ∀ a : Nat,
    List.foldl (fun n c => 10 * n + digitVal c) a l = a * 10 ^ l.length + digitsVal l := by
  induction l with
  | nil => intro a; simp [digitsVal]
  | cons c t ih =>
    intro a
    show List.foldl _ (10 * a + digitVal c) t = _
    rw [ih (10 * a + digitVal c)]
    have h2 : digitsVal (c :: t) = digitVal c * 10 ^ t.length + digitsVal t := by
      show List.foldl _ (10 * 0 + digitVal c) t = _
      rw [ih (10 * 0 + digitVal c)]
      ring_nf
    rw [h2, List.length_cons, pow_succ]
    ring

/-- `digitsVal` of an appended digit string. -/
theorem digitsVal_append (l1 l2 : List Char) :
    digitsVal (l1 ++ l2) = digitsVal l1 * 10 ^ l2.length + digitsVal l2 := by
  show List.foldl _ 0 (l1 ++ l2) = _
  rw [List.foldl_append]
  exact digitsVal_foldl l2 (digitsVal l1)

/-- `digitsVal` inverts `natDigits`. -/
theorem digitsVal_natDigits (n : Nat) : digitsVal (natDigits n) = n := by
  induction n using Nat.strong_induction_on with
  | _ n ih =>
    rw [natDigits_eq]
    by_cases hn : n < 10
    · rw [if_pos hn]
      show 10 * 0 + digitVal (digitChar n) = n
      rw [digitVal_digitChar n hn]
      omega
    · rw [if_neg hn, digitsVal_append]
      have h1 := ih (n / 10) (Nat.div_lt_self (by omega) (by omega))
      have h2 := digitVal_digitChar (n % 10) (Nat.mod_lt n (by omega))
      simp only [List.length_singleton, pow_one, h1]
      show n / 10 * 10 + digitsVal [digitChar (n % 10)] = n
      simp only [digitsVal, List.foldl, Nat.mul_zero, Nat.zero_add, h2]
      omega

/-- Digit-count bound: a number below `10^k` has at most `k` digits
(for `k ≥ 1`). -/
theorem natDigits_length_le (k : Nat) (hk : 1 ≤ k) :
    ∀ n, n < 10 ^ k → (natDigits n).length ≤ k := by
  induction k with
  | zero => omega
  | succ k ih =>
    intro n hn
    rw [natDigits_eq]
    by_cases h10 : n < 10
    · rw [if_pos h10]
      simp
    · rw [if_neg h10]
      rw [List.length_append, List.length_singleton]
      have hk1 : 1 ≤ k := by
        by_contra hk0
        have hk0' : k = 0 := by omega
        subst hk0'
        rw [pow_one] at hn
        omega
      have := ih hk1 (n / 10) (by
        have : n < 10 * 10 ^ k := by
          rw [pow_succ] at hn
          omega
        omega)
      omega

/-- Zeros contribute nothing to a digit value. -/
theorem digitsVal_replicate_zero (k : Nat) (cs : List Char) :
    digitsVal (List.replicate k '0' ++ cs) = digitsVal cs := by
  induction k with
  | zero => rfl
  | succ k ih =>
    rw [List.replicate_succ, List.cons_append]
    show digitsVal (List.replicate k '0' ++ cs) = _
    exact ih

/-- `pad6` preserves the digit value. -/
theorem digitsVal_pad6 (cs : List Char) : digitsVal (pad6 cs) = digitsVal cs :=
  digitsVal_replicate_zero _ cs

/-- `pad6` yields exactly six characters when given at most six. -/
theorem pad6_length (cs : List Char) (h : cs.length ≤ 6) : (pad6 cs).length = 6 := by
  unfold pad6
  rw [List.length_append, List.length_replicate]
  omega

/-- All characters of a padded digit string are digits. -/
theorem pad6_mem (cs : List Char) (h : ∀ c ∈ cs, c ∈ digitChars) :
    ∀ c ∈ pad6 cs, c ∈ digitChars := by
  intro c hc
  rcases List.mem_append.mp hc with hc | hc
  · rcases List.eq_of_mem_replicate hc with rfl
    decide
  · exact h c hc

/-- `takeWhile`/`dropWhile` on a satisfying prefix followed by a failing
(or empty) remainder. -/
theorem takeWhile_append_all (p : Char → Bool) (l1 l2 : List Char)
    (h1 : ∀ c ∈ l1, p c = true)
    (h2 : ∀ c, l2.head? = some c → p c = false) :
    (l1 ++ l2).takeWhile p = l1 ∧ (l1 ++ l2).dropWhile p = l2 := by
  induction l1 with
  | nil =>
    cases l2 with
    | nil => exact ⟨rfl, rfl⟩
    | cons c t => simp [List.takeWhile, List.dropWhile, h2 c rfl]
  | cons c t ih =>
    have hc := h1 c (by simp)
    have ih2 := ih fun x hx => h1 x (by simp [hx])
    simp [List.takeWhile, List.dropWhile, hc, ih2.1, ih2.2]

/-- `dropWhile` is the identity when the head does not satisfy the
predicate. -/
theorem dropWhile_eq_of_head (p : Char → Bool) (cs : List Char)
    (h : ∀ c, cs.head? = some c → p c = false) : cs.dropWhile p = cs := by
  cases cs with
  | nil => rfl
  | cons c t => simp [List.dropWhile, h c rfl]

/-- `pyStrip` is the identity on a token with no edge whitespace. -/
theorem pyStrip_eq_self (cs : List Char)
    (h1 : ∀ c, cs.head? = some c → isWsChar c = false)
    (h2 : ∀ c, cs.getLast? = some c → isWsChar c = false) : pyStrip cs = cs := by
  unfold pyStrip
  rw [dropWhile_eq_of_head _ _ h1]
  rw [dropWhile_eq_of_head _ _ (fun c hc => h2 c (by rwa [← List.head?_reverse]))]
  exact List.reverse_reverse cs

/-- `takeWhile` yields nothing when the head already fails the predicate. -/
theorem takeWhile_eq_nil_of_head (p : Char → Bool) (cs : List Char)
    (h : ∀ c, cs.head? = some c → p c = false) : cs.takeWhile p = [] := by
  cases cs with
  | nil => rfl
  | cons c t => simp [List.takeWhile, h c rfl]

/-- Upper-case letters are not whitespace. -/
theorem upper_not_ws (c : Char) (h : isUpperAZ c = true) : isWsChar c = false := by
  simp only [isUpperAZ, Bool.and_eq_true, decide_eq_true_eq] at h
  simp only [isWsChar, Bool.or_eq_false_iff, decide_eq_false_iff_not]
  refine ⟨⟨⟨⟨⟨?_, ?_⟩, ?_⟩, ?_⟩, ?_⟩, ?_⟩ <;>
    (rintro rfl; revert h; decide)

/-- Digit characters are not signs, dots, exponent markers or the letter
`o`. -/
theorem digitChars_not_special (c : Char) (h : c ∈ digitChars) :
    (c = '+' || c = '-') = false ∧ c = '.' → False := by
  fin_cases h <;> simp

/-- Digit characters are neither sign characters nor dots. -/
theorem digitChars_not_sign (c : Char) (h : c ∈ digitChars) :
    (c = '+' || c = '-') = false := by
  fin_cases h <;> decide

/-- Digit characters are not the dot. -/
theorem digitChars_not_dot (c : Char) (h : c ∈ digitChars) : ('.' = c) = False := by
  fin_cases h <;> decide

/-! ## Round-trip infrastructure: parsing back a formatted float -/

/-- The float token that the grammar's float pattern matches on the output
of `'{:f}'.format`: optional minus sign, integer digits, six fractional
digits, no exponent. -/
def formatTok (q : ℚ) : FloatTok :=
  ⟨if q < 0 then some '-' else none, false,
   .intFrac (natDigits ((scaled6 q).natAbs / 1000000))
     (some (pad6 (natDigits ((scaled6 q).natAbs % 1000000)))),
   none⟩

/-- `parseMantissa` recovers an `intDigits.fracDigits` mantissa exactly
when the remainder does not begin with a digit. -/
theorem parseMantissa_format (ip fp rest : List Char)
    (hip : ip ≠ []) (hipd : ∀ c ∈ ip, c ∈ digitChars)
    (hfpd : ∀ c ∈ fp, c ∈ digitChars)
    (hrest : ∀ c, rest.head? = some c → isDigitChar c = false) :
    parseMantissa (ip ++ '.' :: (fp ++ rest)) = some (.intFrac ip (some fp), rest) := by
  obtain ⟨c0, t0, h0⟩ := List.exists_cons_of_ne_nil hip
  subst h0
  have hc0 : c0 ∈ digitChars := hipd c0 (List.mem_cons_self _ _)
  have h1 : isDigitChar c0 = true := digitChars_isDigit c0 hc0
  have htd := takeWhile_append_all isDigitChar (c0 :: t0) ('.' :: (fp ++ rest))
    (fun c hc => digitChars_isDigit c (hipd c hc))
    (by intro c hc; injection hc with hc; subst hc; decide)
  have htd2 := takeWhile_append_all isDigitChar fp rest
    (fun c hc => digitChars_isDigit c (hfpd c hc)) hrest
  have htake : List.takeWhile isDigitChar (c0 :: (t0 ++ '.' :: (fp ++ rest))) = c0 :: t0 := by
    have h2 := htd.1
    rwa [List.cons_append] at h2
  have hdrop : List.dropWhile isDigitChar (c0 :: (t0 ++ '.' :: (fp ++ rest))) =
      '.' :: (fp ++ rest) := by
    have h2 := htd.2
    rwa [List.cons_append] at h2
  rw [List.cons_append]
  simp only [parseMantissa, h1, if_true, htake, hdrop, htd2.1, htd2.2]

/-- `parseExp` finds no exponent when the input does not start with `e` or
`E`. -/
theorem parseExp_none (cs : List Char)
    (h : ∀ c, cs.head? = some c → (c = 'e' || c = 'E') = false) :
    parseExp cs = (none, cs) := by
  cases cs with
  | nil => rfl
  | cons c rest =>
    have hc : (c = 'e' || c = 'E') = false := h c rfl
    simp only [parseExp, hc, Bool.false_eq_true, if_false]

/-- `parseFloat` recovers the token of a formatted value exactly when the
remainder begins with a space or a closing bracket. -/
theorem parseFloat_format (q : ℚ) (rest : List Char)
    (hrest : rest.head? = some ' ' ∨ rest.head? = some ']') :
    parseFloat (formatFixed6 q ++ rest) = some (formatTok q, rest) := by
  have hrd : ∀ c, rest.head? = some c → isDigitChar c = false := by
    intro c hc
    rcases hrest with h | h <;> (rw [h] at hc; injection hc with hc; subst hc; decide)
  have hip : natDigits ((scaled6 q).natAbs / 1000000) ≠ [] := natDigits_ne_nil _
  have hipd : ∀ c ∈ natDigits ((scaled6 q).natAbs / 1000000), c ∈ digitChars :=
    natDigits_mem _
  have hfpd : ∀ c ∈ pad6 (natDigits ((scaled6 q).natAbs % 1000000)), c ∈ digitChars :=
    pad6_mem _ (natDigits_mem _)
  have hrd : ∀ c, rest.head? = some c → isDigitChar c = false := by
    intro c hc
    rcases hrest with h | h <;> (rw [h] at hc; injection hc with hc; subst hc; decide)
  have hre : ∀ c, rest.head? = some c → (c = 'e' || c = 'E') = false := by
    intro c hc
    rcases hrest with h | h <;> (rw [h] at hc; injection hc with hc; subst hc; decide)
  have hip : natDigits ((scaled6 q).natAbs / 1000000) ≠ [] := natDigits_ne_nil _
  have hipd : ∀ c ∈ natDigits ((scaled6 q).natAbs / 1000000), c ∈ digitChars :=
    natDigits_mem _
  have hfpd : ∀ c ∈ pad6 (natDigits ((scaled6 q).natAbs % 1000000)), c ∈ digitChars :=
    pad6_mem _ (natDigits_mem _)
  have hmant := parseMantissa_format _ _ rest hip hipd hfpd hrd
  have hexp := parseExp_none rest hre
  obtain ⟨c0, t0, h0⟩ := List.exists_cons_of_ne_nil hip
  have hc0 : c0 ∈ digitChars := hipd c0 (by rw [h0]; exact List.mem_cons_self _ _)
  have hbody : natDigits ((scaled6 q).natAbs / 1000000) ++
      ('.' :: (pad6 (natDigits ((scaled6 q).natAbs % 1000000)) ++ rest)) =
      c0 :: (t0 ++ ('.' :: (pad6 (natDigits ((scaled6 q).natAbs % 1000000)) ++ rest))) := by
    rw [h0, List.cons_append]
  by_cases hq : q < 0
  · have hcs : formatFixed6 q ++ rest =
        '-' :: (natDigits ((scaled6 q).natAbs / 1000000) ++
          ('.' :: (pad6 (natDigits ((scaled6 q).natAbs % 1000000)) ++ rest))) := by
      unfold formatFixed6
      rw [if_pos hq]
      simp [List.append_assoc]
    have hdw : List.dropWhile isWsChar (natDigits ((scaled6 q).natAbs / 1000000) ++
        ('.' :: (pad6 (natDigits ((scaled6 q).natAbs % 1000000)) ++ rest))) =
        natDigits ((scaled6 q).natAbs / 1000000) ++
          ('.' :: (pad6 (natDigits ((scaled6 q).natAbs % 1000000)) ++ rest)) :=
      dropWhile_eq_of_head isWsChar _ (by
        rw [hbody]
        intro c hc
        injection hc with hc
        subst hc
        exact digitChars_not_ws c0 hc0)
    have htw : List.takeWhile isWsChar (natDigits ((scaled6 q).natAbs / 1000000) ++
        ('.' :: (pad6 (natDigits ((scaled6 q).natAbs % 1000000)) ++ rest))) = [] :=
      takeWhile_eq_nil_of_head isWsChar _ (by
        rw [hbody]
        intro c hc
        injection hc with hc
        subst hc
        exact digitChars_not_ws c0 hc0)
    have hsign : parseSign (formatFixed6 q ++ rest) =
        (some '-', false, natDigits ((scaled6 q).natAbs / 1000000) ++
          ('.' :: (pad6 (natDigits ((scaled6 q).natAbs % 1000000)) ++ rest))) := by
      rw [hcs]
      simp only [parseSign, htw, hdw]
      rfl
    unfold parseFloat
    rw [hsign]
    simp only [hmant, hexp]
    unfold formatTok
    rw [if_pos hq]
  · have hcs : formatFixed6 q ++ rest =
        natDigits ((scaled6 q).natAbs / 1000000) ++
          ('.' :: (pad6 (natDigits ((scaled6 q).natAbs % 1000000)) ++ rest)) := by
      unfold formatFixed6
      rw [if_neg hq]
      simp [List.append_assoc]
    have hsign : parseSign (formatFixed6 q ++ rest) =
        (none, false, natDigits ((scaled6 q).natAbs / 1000000) ++
          ('.' :: (pad6 (natDigits ((scaled6 q).natAbs % 1000000)) ++ rest))) := by
      rw [hcs, hbody]
      simp only [parseSign]
      rw [if_neg (by rw [digitChars_not_sign c0 hc0]; exact Bool.false_ne_true)]
    unfold parseFloat
    rw [hsign]
    simp only [hmant, hexp]
    unfold formatTok
    rw [if_neg hq]

/-- `float()` on the re-parsed token of a formatted value recovers the
value exactly, whenever the denominator divides `10^6` (i.e. the value is
exactly representable with six fractional digits). -/
theorem floatVal_formatTok (q : ℚ) (hden : q.den ∣ 1000000) :
    floatVal (formatTok q) = .ok q := by
  obtain ⟨t, ht⟩ := hden
  have htne0 : t ≠ 0 := by
    rintro rfl
    rw [Nat.mul_zero] at ht
    exact absurd ht (by norm_num)
  have hti : (1000000 : Int) = (q.den : Int) * (t : Int) := by exact_mod_cast ht
  have hdne : (q.den : Int) ≠ 0 := by exact_mod_cast q.den_nz
  have htine : (t : Int) ≠ 0 := by exact_mod_cast htne0
  have htipos : (0 : Int) < (t : Int) := by exact_mod_cast Nat.pos_of_ne_zero htne0
  have hn : scaled6 q = q.num * (t : Int) := by
    unfold scaled6
    rw [hti, show q.num * ((q.den : Int) * (t : Int)) = q.num * (t : Int) * (q.den : Int)
      from by ring]
    exact Int.mul_ediv_cancel _ hdne
  have hv : Rat.divInt (scaled6 q) 1000000 = q := by
    rw [hn, hti, Rat.divInt_mul_right htine]
    exact Rat.divInt_self q
  have hmod : (scaled6 q).natAbs % 1000000 < 10 ^ 6 := by
    have h1 := Nat.mod_lt (scaled6 q).natAbs (show 0 < 1000000 from by norm_num)
    calc (scaled6 q).natAbs % 1000000 < 1000000 := h1
    _ ≤ 10 ^ 6 := by norm_num
  have hfplen : (pad6 (natDigits ((scaled6 q).natAbs % 1000000))).length = 6 :=
    pad6_length _ (natDigits_length_le 6 (by norm_num) _ hmod)
  have hbase : digitsVal (natDigits ((scaled6 q).natAbs / 1000000)) *
      10 ^ (pad6 (natDigits ((scaled6 q).natAbs % 1000000))).length +
      digitsVal (pad6 (natDigits ((scaled6 q).natAbs % 1000000))) = (scaled6 q).natAbs := by
    rw [digitsVal_natDigits, digitsVal_pad6, digitsVal_natDigits, hfplen]
    have h6 : (10 : Nat) ^ 6 = 1000000 := by norm_num
    rw [h6]
    omega
  have hp6 : ((10 : Int)) ^ (pad6 (natDigits ((scaled6 q).natAbs % 1000000))).length
      = 1000000 := by
    rw [hfplen]
    norm_num
  by_cases hq : q < 0
  · rw [show formatTok q = ⟨some '-', false,
        .intFrac (natDigits ((scaled6 q).natAbs / 1000000))
          (some (pad6 (natDigits ((scaled6 q).natAbs % 1000000)))), none⟩ from by
      unfold formatTok
      rw [if_pos hq]]
    show Except.ok (floatValCore true (natDigits ((scaled6 q).natAbs / 1000000))
      (pad6 (natDigits ((scaled6 q).natAbs % 1000000))) 0) = Except.ok q
    have hle : scaled6 q ≤ 0 := by
      rw [hn]
      have hnum : q.num < 0 := Rat.num_neg.mpr hq
      nlinarith
    have hcore : floatValCore true (natDigits ((scaled6 q).natAbs / 1000000))
        (pad6 (natDigits ((scaled6 q).natAbs % 1000000))) 0 = q := by
      simp only [floatValCore, eq_self_iff_true, if_true]
      rw [if_pos (le_refl (0 : Int))]
      rw [hbase, hp6]
      rw [show ((0 : Int).toNat) = 0 from rfl, pow_zero, mul_one]
      rw [Int.ofNat_natAbs_of_nonpos hle, neg_neg]
      exact hv
    rw [hcore]
  · rw [show formatTok q = ⟨none, false,
        .intFrac (natDigits ((scaled6 q).natAbs / 1000000))
          (some (pad6 (natDigits ((scaled6 q).natAbs % 1000000)))), none⟩ from by
      unfold formatTok
      rw [if_neg hq]]
    show Except.ok (floatValCore false (natDigits ((scaled6 q).natAbs / 1000000))
      (pad6 (natDigits ((scaled6 q).natAbs % 1000000))) 0) = Except.ok q
    have hge : 0 ≤ scaled6 q := by
      rw [hn]
      have hnum : 0 ≤ q.num := Rat.num_nonneg.mpr (le_of_not_lt hq)
      positivity
    have hcore : floatValCore false (natDigits ((scaled6 q).natAbs / 1000000))
        (pad6 (natDigits ((scaled6 q).natAbs % 1000000))) 0 = q := by
      simp only [floatValCore, Bool.false_eq_true, if_false]
      rw [if_pos (le_refl (0 : Int))]
      rw [hbase, hp6]
      rw [show ((0 : Int).toNat) = 0 from rfl, pow_zero, mul_one]
      rw [Int.natAbs_of_nonneg hge]
      exact hv
    rw [hcore]

/-- A formatted value split into sign and digit body. -/
theorem formatFixed6_append (q : ℚ) (rest : List Char) :
    formatFixed6 q ++ rest =
      (if q < 0 then ['-'] else []) ++ (natDigits ((scaled6 q).natAbs / 1000000) ++
        ('.' :: (pad6 (natDigits ((scaled6 q).natAbs % 1000000)) ++ rest))) := by
  unfold formatFixed6
  simp [List.append_assoc]

/-- A formatted value never starts with whitespace. -/
theorem format_head_not_ws (q : ℚ) (rest : List Char) :
    ∀ c, (formatFixed6 q ++ rest).head? = some c → isWsChar c = false := by
  intro c hc
  rw [formatFixed6_append] at hc
  obtain ⟨c0, t0, h0⟩ :=
    List.exists_cons_of_ne_nil (natDigits_ne_nil ((scaled6 q).natAbs / 1000000))
  have hc0 : c0 ∈ digitChars := natDigits_mem _ c0 (by rw [h0]; exact List.mem_cons_self _ _)
  by_cases hq : q < 0
  · rw [if_pos hq, List.singleton_append, List.head?_cons] at hc
    injection hc with hc
    subst hc
    decide
  · rw [if_neg hq, List.nil_append, h0, List.cons_append, List.head?_cons] at hc
    injection hc with hc
    subst hc
    exact digitChars_not_ws c0 hc0

/-- `parseBracket` on two formatted angles and the closing bracket. -/
theorem parseBracket_two (q1 q2 : ℚ) :
    parseBracket (formatFixed6 q1 ++ (' ' :: (formatFixed6 q2 ++ [']']))) =
      some (.angles (formatTok q1) (formatTok q2) none) := by
  have hf1 := parseFloat_format q1 (' ' :: (formatFixed6 q2 ++ [']'])) (Or.inl rfl)
  have hf2 := parseFloat_format q2 [']'] (Or.inr rfl)
  have hd1 : (formatFixed6 q1 ++ (' ' :: (formatFixed6 q2 ++ [']']))).dropWhile isWsChar =
      formatFixed6 q1 ++ (' ' :: (formatFixed6 q2 ++ [']'])) :=
    dropWhile_eq_of_head _ _ (format_head_not_ws q1 _)
  have hemp : ((' ' :: (formatFixed6 q2 ++ [']'])).takeWhile isWsChar).isEmpty = false := rfl
  have hdw2 : (' ' :: (formatFixed6 q2 ++ [']'])).dropWhile isWsChar =
      formatFixed6 q2 ++ [']'] := by
    show (formatFixed6 q2 ++ [']']).dropWhile isWsChar = formatFixed6 q2 ++ [']']
    exact dropWhile_eq_of_head _ _ (format_head_not_ws q2 [']'])
  unfold parseBracket
  simp only [hd1, hf1, hemp, Bool.false_eq_true, if_false, hdw2, hf2]
  rfl

/-- `parseBracket` on three formatted angles and the closing bracket. -/
theorem parseBracket_three (q1 q2 q3 : ℚ) :
    parseBracket (formatFixed6 q1 ++ (' ' :: (formatFixed6 q2 ++
        (' ' :: (formatFixed6 q3 ++ [']']))))) =
      some (.angles (formatTok q1) (formatTok q2) (some (formatTok q3))) := by
  have hf1 := parseFloat_format q1
    (' ' :: (formatFixed6 q2 ++ (' ' :: (formatFixed6 q3 ++ [']'])))) (Or.inl rfl)
  have hf2 := parseFloat_format q2 (' ' :: (formatFixed6 q3 ++ [']'])) (Or.inl rfl)
  have hf3 := parseFloat_format q3 [']'] (Or.inr rfl)
  have hd1 : (formatFixed6 q1 ++ (' ' :: (formatFixed6 q2 ++
      (' ' :: (formatFixed6 q3 ++ [']']))))).dropWhile isWsChar =
      formatFixed6 q1 ++ (' ' :: (formatFixed6 q2 ++ (' ' :: (formatFixed6 q3 ++ [']'])))) :=
    dropWhile_eq_of_head _ _ (format_head_not_ws q1 _)
  have hemp2 : ((' ' :: (formatFixed6 q2 ++ (' ' :: (formatFixed6 q3 ++
      [']'])))).takeWhile isWsChar).isEmpty = false := rfl
  have hdw2 : (' ' :: (formatFixed6 q2 ++ (' ' :: (formatFixed6 q3 ++
      [']'])))).dropWhile isWsChar = formatFixed6 q2 ++ (' ' :: (formatFixed6 q3 ++ [']'])) := by
    show (formatFixed6 q2 ++ (' ' :: (formatFixed6 q3 ++ [']']))).dropWhile isWsChar = _
    exact dropWhile_eq_of_head _ _ (format_head_not_ws q2 _)
  have hemp3 : ((' ' :: (formatFixed6 q3 ++ [']'])).takeWhile isWsChar).isEmpty = false := rfl
  have hdw3 : (' ' :: (formatFixed6 q3 ++ [']'])).dropWhile isWsChar =
      formatFixed6 q3 ++ [']'] := by
    show (formatFixed6 q3 ++ [']']).dropWhile isWsChar = formatFixed6 q3 ++ [']']
    exact dropWhile_eq_of_head _ _ (format_head_not_ws q3 [']'])
  unfold parseBracket
  simp only [hd1, hf1, hemp2, Bool.false_eq_true, if_false, hdw2, hf2, hemp3, hdw3, hf3]
  rfl

/-- A dihedral list that renders and re-parses exactly: absent, or three
present angles each exactly representable with six fractional digits. -/
def goodDih3 (dd : Option (List (Option ℚ))) : Prop :=
  dd = none ∨ ∃ q1 q2 q3 : ℚ, dd = some [some q1, some q2, some q3] ∧
    q1.den ∣ 1000000 ∧ q2.den ∣ 1000000 ∧ q3.den ∣ 1000000

/-- The two-angle variant (for alpha residues). -/
def goodDih2 (dd : Option (List (Option ℚ))) : Prop :=
  dd = none ∨ ∃ q1 q2 : ℚ, dd = some [some q1, some q2] ∧
    q1.den ∣ 1000000 ∧ q2.den ∣ 1000000

/-- Render-then-parse of a three-angle dihedral suffix. -/
theorem parseSuffix_format3 (store : SSStore) (dd : Option (List (Option ℚ)))
    (h : goodDih3 dd) :
    ∃ ts, parseSuffix (formatDihedrals dd) = some ts ∧
      resolveDihedrals store ts = .ok dd := by
  rcases h with rfl | ⟨q1, q2, q3, rfl, h1, h2, h3⟩
  · exact ⟨.noSpec, rfl, rfl⟩
  · refine ⟨.angles (formatTok q1) (formatTok q2) (some (formatTok q3)), ?_, ?_⟩
    · have hshape : formatDihedrals (some [some q1, some q2, some q3]) =
          '[' :: (formatFixed6 q1 ++ (' ' :: (formatFixed6 q2 ++
            (' ' :: (formatFixed6 q3 ++ [']']))))) := by
        show '[' :: ((formatFixed6 q1 ++ (' ' :: (formatFixed6 q2 ++
          (' ' :: formatFixed6 q3)))) ++ [']']) = _
        simp [List.append_assoc]
      rw [hshape]
      show parseBracket (formatFixed6 q1 ++ (' ' :: (formatFixed6 q2 ++
        (' ' :: (formatFixed6 q3 ++ [']']))))) = _
      exact parseBracket_three q1 q2 q3
    · simp only [resolveDihedrals, floatVal_formatTok q1 h1, floatVal_formatTok q2 h2,
        floatVal_formatTok q3 h3]
      rfl

/-- Render-then-parse of a two-angle dihedral suffix. -/
theorem parseSuffix_format2 (store : SSStore) (dd : Option (List (Option ℚ)))
    (h : goodDih2 dd) :
    ∃ ts, parseSuffix (formatDihedrals dd) = some ts ∧
      resolveDihedrals store ts = .ok dd := by
  rcases h with rfl | ⟨q1, q2, rfl, h1, h2⟩
  · exact ⟨.noSpec, rfl, rfl⟩
  · refine ⟨.angles (formatTok q1) (formatTok q2) none, ?_, ?_⟩
    · have hshape : formatDihedrals (some [some q1, some q2]) =
          '[' :: (formatFixed6 q1 ++ (' ' :: (formatFixed6 q2 ++ [']']))) := by
        show '[' :: ((formatFixed6 q1 ++ (' ' :: formatFixed6 q2)) ++ [']']) = _
        simp [List.append_assoc]
      rw [hshape]
      show parseBracket (formatFixed6 q1 ++ (' ' :: (formatFixed6 q2 ++ [']']))) = _
      exact parseBracket_two q1 q2
    · simp only [resolveDihedrals, floatVal_formatTok q1 h1, floatVal_formatTok q2 h2]
      rfl

/-- The rendered dihedral suffix never starts with an upper-case letter. -/
theorem formatDihedrals_head_not_upper (dd : Option (List (Option ℚ))) :
    ∀ c, (formatDihedrals dd).head? = some c → isUpperAZ c = false := by
  intro c hc
  cases dd with
  | none => exact absurd hc (by simp [formatDihedrals])
  | some l =>
    rw [formatDihedrals, List.head?_cons] at hc
    injection hc with hc
    subst hc
    decide

/-- `takeSC` splits a one- or two-letter code off a remainder that does not
start with an upper-case letter. -/
theorem takeSC_prefix (sc rest : List Char)
    (h2 : sc.length = 1 ∨ sc.length = 2)
    (h3 : ∀ c ∈ sc, isUpperAZ c = true)
    (h4 : ∀ c, rest.head? = some c → isUpperAZ c = false) :
    takeSC (sc ++ rest) = some (sc, rest) := by
  have htd := takeWhile_append_all isUpperAZ sc rest h3 h4
  unfold takeSC
  rw [htd.1, htd.2]
  rcases h2 with h2 | h2 <;> simp [h2]

/-- Every side-chain key is a one- or two-letter upper-case code. -/
theorem key_wf (s : String) (h : s ∈ SIDECHAIN_KEYS) :
    s.data ≠ [] ∧ (s.data.length = 1 ∨ s.data.length = 2) ∧
      ∀ c ∈ s.data, isUpperAZ c = true := by
  fin_cases h <;> decide

/-- The stereo-descriptor well-formedness the head patterns guarantee. -/
def headStereoOk : HeadMatch → Prop
  | .achc s2 s3 => isRS s2 = true ∧ isRS s3 = true
  | .acpc s2 s3 => isRS s2 = true ∧ isRS s3 = true
  | .beta23 s2 s3 _ _ => isRS s2 = true ∧ isRS s3 = true
  | .mono st _ _ => isRS st = true
  | .alpha st _ => isRSLD st = true
  | _ => True

/-- A successful `(2x3y)`-family match satisfies its stereo guards. -/
theorem parseHeadCaps_stereo (s2 s3 : Char) (cs : List Char) (pr : HeadMatch × List Char)
    (hg2 : isRS s2 = true) (hg3 : isRS s3 = true)
    (hp : parseHeadCaps s2 s3 cs = some pr) : headStereoOk pr.1 := by
  unfold parseHeadCaps at hp
  split at hp
  · cases hp; exact ⟨hg2, hg3⟩
  · cases hp; exact ⟨hg2, hg3⟩
  · split at hp
    · split at hp
      · cases hp; exact ⟨hg2, hg3⟩
      · cases hp
    · cases hp
  · cases hp

/-- A successful single-stereo match satisfies its stereo guard. -/
theorem parseHeadMono_stereo (cs : List Char) (pr : HeadMatch × List Char)
    (hp : parseHeadMono cs = some pr) : headStereoOk pr.1 := by
  unfold parseHeadMono at hp
  split at hp
  · split at hp
    · rename_i hg
      simp only [Bool.and_eq_true] at hg
      split at hp
      · cases hp; exact hg.1
      · cases hp
    · cases hp
  · split at hp
    · rename_i hg
      split at hp
      · cases hp; exact hg
      · cases hp
    · cases hp
  · cases hp

/-- Any successful head match satisfies its stereo guards. -/
theorem parseHead_stereo (cs : List Char) (pr : HeadMatch × List Char)
    (hp : parseHead cs = some pr) : headStereoOk pr.1 := by
  unfold parseHead at hp
  split at hp
  · cases hp; trivial
  · cases hp; trivial
  · cases hp; trivial
  · cases hp; trivial
  · rename_i rest0
    unfold parseHeadParen at hp
    split at hp
    · split at hp
      · rename_i hg
        simp only [Bool.and_eq_true] at hg
        exact parseHeadCaps_stereo _ _ _ _ hg.1 hg.2 hp
      · exact parseHeadMono_stereo _ _ hp
    · exact parseHeadMono_stereo _ _ hp
  · cases hp

/-- A dihedral field that is absent or has exactly `n` entries. -/
def dihNoneOrLen (dd : Option (List (Option ℚ))) (n : Nat) : Prop :=
  dd = none ∨ ∃ l, dd = some l ∧ l.length = n

/-- A false dihedral-count gate means the list is absent or has the
required length. -/
theorem dihLenNe_false (dd : Option (List (Option ℚ))) (n : Nat)
    (h : dihLenNe dd n = false) : dihNoneOrLen dd n := by
  cases dd with
  | none => exact Or.inl rfl
  | some l =>
    right
    refine ⟨l, rfl, ?_⟩
    simpa [dihLenNe] using h

/-- A single stereo character of the allowed `[RS]` class. -/
def stereoRS (s : String) : Prop :=
  ∃ st, (st = 'R' ∨ st = 'S') ∧ s = String.mk [st]

/-- A single stereo character of the allowed `[RSLD]` class. -/
def stereoRSLD (s : String) : Prop :=
  ∃ st, (st = 'R' ∨ st = 'S' ∨ st = 'L' ∨ st = 'D') ∧ s = String.mk [st]

/-- The exact shapes a parsed residue descriptor can take, by kind. -/
def DescShape (d : ResidueDescriptor) : Prop :=
  (d.kind = "BA" ∧ d.sidechain2 = "G" ∧ d.stereo2 = "" ∧ d.sidechain3 = "G" ∧
    d.stereo3 = "" ∧ dihNoneOrLen d.dihedrals 3) ∨
  (d.kind = "A" ∧ stereoRSLD d.stereo2 ∧ d.sidechain3 = "" ∧ d.stereo3 = "" ∧
    dihNoneOrLen d.dihedrals 2) ∨
  (d.kind = "B2" ∧ stereoRS d.stereo2 ∧ d.sidechain3 = "G" ∧ d.stereo3 = "" ∧
    dihNoneOrLen d.dihedrals 3) ∨
  (d.kind = "B3" ∧ d.sidechain2 = "G" ∧ d.stereo2 = "" ∧ stereoRS d.stereo3 ∧
    dihNoneOrLen d.dihedrals 3) ∨
  (d.kind = "B23" ∧ stereoRS d.stereo2 ∧ stereoRS d.stereo3 ∧
    dihNoneOrLen d.dihedrals 3) ∨
  ((d.kind = "ACE" ∨ d.kind = "NME" ∨ d.kind = "BUT") ∧ d.sidechain2 = "" ∧
    d.stereo2 = "" ∧ d.sidechain3 = "" ∧ d.stereo3 = "" ∧ d.dihedrals = none) ∨
  ((d.kind = "ACPC" ∨ d.kind = "ACHC") ∧ d.sidechain2 = "" ∧ stereoRS d.stereo2 ∧
    d.sidechain3 = "" ∧ stereoRS d.stereo3)

/-- A satisfied `isRS` guard names `R` or `S`. -/
theorem stereoRS_of_isRS (st : Char) (h : isRS st = true) :
    stereoRS (String.mk [st]) := by
  refine ⟨st, ?_, rfl⟩
  simpa [isRS] using h

/-- A satisfied `isRSLD` guard names `R`, `S`, `L` or `D`. -/
theorem stereoRSLD_of_isRSLD (st : Char) (h : isRSLD st = true) :
    stereoRSLD (String.mk [st]) := by
  refine ⟨st, ?_, rfl⟩
  simp only [isRSLD, Bool.or_eq_true, decide_eq_true_eq] at h
  tauto

/-- Every descriptor the parser accepts has one of the per-kind shapes. -/
theorem parse_shape (store : SSStore) (T : String) (d : ResidueDescriptor)
    (h : parseAminoAcid store T = .ok d) : DescShape d := by
  simp only [parseAminoAcid] at h
  split at h
  · exact absurd h (by simp)
  · rename_i hm rest hph
    split at h
    · exact absurd h (by simp)
    · rename_i t
      split at h
      · exact absurd h (by simp)
      · rename_i dih hrd
        have hst := parseHead_stereo _ _ hph
        cases hm with
        | bare =>
          unfold buildDescriptor at h
          cases hgate : dihLenNe dih 3 with
          | true => rw [hgate] at h; exact absurd h (by simp)
          | false =>
            rw [hgate] at h
            simp only [Bool.false_eq_true, if_false, Except.ok.injEq] at h
            subst h
            exact Or.inl ⟨rfl, rfl, rfl, rfl, rfl, dihLenNe_false _ _ hgate⟩
        | alpha st sc =>
          unfold buildDescriptor at h
          cases hgate : dihLenNe dih 2 with
          | true => rw [hgate] at h; exact absurd h (by simp)
          | false =>
            rw [hgate] at h
            simp only [Bool.false_eq_true, if_false, Except.ok.injEq] at h
            subst h
            exact Or.inr (Or.inl ⟨rfl, stereoRSLD_of_isRSLD st hst, rfl, rfl,
              dihLenNe_false _ _ hgate⟩)
        | mono st kind2 sc =>
          unfold buildDescriptor at h
          cases hgate : dihLenNe dih 3 with
          | true => rw [hgate] at h; exact absurd h (by simp)
          | false =>
            rw [hgate] at h
            cases kind2 with
            | true =>
              simp only [Bool.false_eq_true, if_false, if_true, Except.ok.injEq] at h
              subst h
              exact Or.inr (Or.inr (Or.inl ⟨rfl, stereoRS_of_isRS st hst, rfl, rfl,
                dihLenNe_false _ _ hgate⟩))
            | false =>
              simp only [Bool.false_eq_true, if_false, Except.ok.injEq] at h
              subst h
              exact Or.inr (Or.inr (Or.inr (Or.inl ⟨rfl, rfl, rfl,
                stereoRS_of_isRS st hst, dihLenNe_false _ _ hgate⟩)))
        | ace =>
          unfold buildDescriptor at h
          cases hgate : dih with
          | some l => rw [hgate] at h; exact absurd h (by simp)
          | none =>
            rw [hgate] at h
            simp only [Option.isSome_none, Bool.false_eq_true, if_false,
              Except.ok.injEq] at h
            subst h
            exact Or.inr (Or.inr (Or.inr (Or.inr (Or.inr (Or.inl
              ⟨Or.inl rfl, rfl, rfl, rfl, rfl, rfl⟩)))))
        | nme =>
          unfold buildDescriptor at h
          cases hgate : dih with
          | some l => rw [hgate] at h; exact absurd h (by simp)
          | none =>
            rw [hgate] at h
            simp only [Option.isSome_none, Bool.false_eq_true, if_false,
              Except.ok.injEq] at h
            subst h
            exact Or.inr (Or.inr (Or.inr (Or.inr (Or.inr (Or.inl
              ⟨Or.inr (Or.inl rfl), rfl, rfl, rfl, rfl, rfl⟩)))))
        | but =>
          unfold buildDescriptor at h
          cases hgate : dih with
          | some l => rw [hgate] at h; exact absurd h (by simp)
          | none =>
            rw [hgate] at h
            simp only [Option.isSome_none, Bool.false_eq_true, if_false,
              Except.ok.injEq] at h
            subst h
            exact Or.inr (Or.inr (Or.inr (Or.inr (Or.inr (Or.inl
              ⟨Or.inr (Or.inr rfl), rfl, rfl, rfl, rfl, rfl⟩)))))
        | acpc s2 s3 =>
          unfold buildDescriptor at h
          simp only [Except.ok.injEq] at h
          subst h
          exact Or.inr (Or.inr (Or.inr (Or.inr (Or.inr (Or.inr
            ⟨Or.inl rfl, rfl, stereoRS_of_isRS s2 hst.1, rfl,
              stereoRS_of_isRS s3 hst.2⟩)))))
        | achc s2 s3 =>
          unfold buildDescriptor at h
          simp only [Except.ok.injEq] at h
          subst h
          exact Or.inr (Or.inr (Or.inr (Or.inr (Or.inr (Or.inr
            ⟨Or.inr rfl, rfl, stereoRS_of_isRS s2 hst.1, rfl,
              stereoRS_of_isRS s3 hst.2⟩)))))
        | beta23 s2 s3 sc2 sc3 =>
          unfold buildDescriptor at h
          cases hgate : dihLenNe dih 3 with
          | true => rw [hgate] at h; exact absurd h (by simp)
          | false =>
            rw [hgate] at h
            simp only [Bool.false_eq_true, if_false, Except.ok.injEq] at h
            subst h
            exact Or.inr (Or.inr (Or.inr (Or.inr (Or.inl ⟨rfl,
              stereoRS_of_isRS s2 hst.1, stereoRS_of_isRS s3 hst.2,
              dihLenNe_false _ _ hgate⟩))))

/-- A good three-angle dihedral field passes the length gate. -/
theorem goodDih3_lenNe (dd : Option (List (Option ℚ))) (h : goodDih3 dd) :
    dihLenNe dd 3 = false := by
  rcases h with rfl | ⟨q1, q2, q3, rfl, h1⟩ <;> rfl

/-- A good two-angle dihedral field passes the length gate. -/
theorem goodDih2_lenNe (dd : Option (List (Option ℚ))) (h : goodDih2 dd) :
    dihLenNe dd 2 = false := by
  rcases h with rfl | ⟨q1, q2, rfl, h1⟩ <;> rfl

/-- The rendered dihedral suffix is empty or a bracketed body. -/
theorem formatDihedrals_cases (dd : Option (List (Option ℚ))) :
    formatDihedrals dd = [] ∨ ∃ X, formatDihedrals dd = '[' :: (X ++ [']']) := by
  cases dd with
  | none => exact Or.inl rfl
  | some l => exact Or.inr ⟨joinSpace ((l.filterMap id).map formatFixed6), rfl⟩

/-- `pyStrip` is the identity on a rendered token: a non-blank head, a
non-blank designation tail and an optional bracketed dihedral suffix. -/
theorem pyStrip_head_body (pre body : List Char) (dd : Option (List (Option ℚ)))
    (c0 : Char) (t0 : List Char) (hpre : pre = c0 :: t0) (hc0 : isWsChar c0 = false)
    (hlast : ∀ c, (pre ++ body).getLast? = some c → isWsChar c = false) :
    pyStrip ((pre ++ body) ++ formatDihedrals dd) = (pre ++ body) ++ formatDihedrals dd := by
  apply pyStrip_eq_self
  · intro c hc
    rw [hpre, List.cons_append, List.cons_append, List.head?_cons] at hc
    injection hc with hc
    subst hc
    exact hc0
  · intro c hc
    rcases formatDihedrals_cases dd with hfd | ⟨X, hfd⟩
    · rw [hfd, List.append_nil] at hc
      exact hlast c hc
    · rw [hfd] at hc
      rw [show (pre ++ body) ++ '[' :: (X ++ [']']) = ((pre ++ body) ++ ('[' :: X)) ++ [']']
        from by simp] at hc
      rw [List.getLast?_concat] at hc
      injection hc with hc
      subst hc
      decide

/-- The B2/B3 head alternative on its exact rendered shape. -/
theorem parseHeadMono_B (st k : Char) (b : Bool) (rest sc rest2 : List Char)
    (hg : (isRS st && (k = '2' || k = '3')) = true)
    (hb : (decide (k = '2')) = b)
    (htsc : takeSC rest = some (sc, rest2)) :
    parseHeadMono (st :: ')' :: 'B' :: k :: 'h' :: rest) = some (.mono st b sc, rest2) := by
  subst hb
  simp only [parseHeadMono, hg, if_true, htsc]

/-- The alpha head alternative on its exact rendered shape. -/
theorem parseHeadMono_alpha (st : Char) (rest sc rest2 : List Char)
    (hg : isRSLD st = true)
    (htsc : takeSC rest = some (sc, rest2)) :
    parseHeadMono (st :: ')' :: 'A' :: rest) = some (.alpha st sc, rest2) := by
  simp only [parseHeadMono, hg, if_true, htsc]

/-- The B23 head alternative on its exact rendered shape. -/
theorem parseHeadCaps_beta23 (s2 s3 : Char) (rest2 sc2 rest3 sc3 rest4 : List Char)
    (h2 : takeSC rest2 = some (sc2, '3' :: rest3))
    (h3 : takeSC rest3 = some (sc3, ')' :: rest4)) :
    parseHeadCaps s2 s3 ('B' :: '2' :: '3' :: 'h' :: '(' :: '2' :: rest2) =
      some (.beta23 s2 s3 sc2 sc3, rest4) := by
  simp only [parseHeadCaps, h2, h3]

/-- The parser pipeline on a token that needs no stripping, with each
stage's result given. -/
theorem parseAminoAcid_steps (store : SSStore) (tok : List Char) (hm : HeadMatch)
    (rest : List Char) (ts : TorsionSpec) (dih : Option (List (Option ℚ)))
    (hstrip : pyStrip tok = tok)
    (hph : parseHead tok = some (hm, rest))
    (hsuf : parseSuffix rest = some ts)
    (hres : resolveDihedrals store ts = .ok dih) :
    parseAminoAcid store tok.asString = buildDescriptor tok.asString hm dih := by
  simp only [parseAminoAcid]
  rw [show (tok.asString).data = tok from rfl, hstrip]
  simp only [hph, hsuf, hres]

/-- On a non-`2` first character the parenthesised dispatch falls to the
single-stereo family. -/
theorem parseHeadParen_not2 (st : Char) (hne : ¬(st = '2')) (rest : List Char) :
    parseHeadParen (st :: rest) = parseHeadMono (st :: rest) := by
  unfold parseHeadParen
  split
  · rename_i s2 s3 rest2 heq
    injection heq with h1 h2
    exact absurd h1 hne
  · rfl

/-- Round trip of a B2 descriptor through render and re-parse. -/
theorem roundtrip_B2 (store : SSStore) (st : Char) (hst : st = 'R' ∨ st = 'S')
    (sc : String) (hsc : sc ∈ SIDECHAIN_KEYS)
    (dd : Option (List (Option ℚ))) (hdd : goodDih3 dd) :
    ∃ s, renderResidue ⟨"B2", sc, String.mk [st], "G", "", dd⟩ = .ok s ∧
      parseAminoAcid store s = .ok ⟨"B2", sc, String.mk [st], "G", "", dd⟩ := by
  obtain ⟨hne, hlen, hup⟩ := key_wf sc hsc
  have hsc2 : SIDECHAIN_KEYS.contains sc = true := List.elem_iff.mpr hsc
  have hlenNe : dihLenNe dd 3 = false := goodDih3_lenNe dd hdd
  obtain ⟨ts, hsuf, hres⟩ := parseSuffix_format3 store dd hdd
  have htsc : takeSC (sc.data ++ formatDihedrals dd) = some (sc.data, formatDihedrals dd) :=
    takeSC_prefix _ _ hlen hup (formatDihedrals_head_not_upper dd)
  have hstc : (["R", "S"].contains (String.mk [st])) = true := by
    rcases hst with rfl | rfl <;> decide
  have hne2 : ¬(st = '2') := by rcases hst with rfl | rfl <;> decide
  have hgu : (isRS st && ('2' = '2' || '2' = '3' : Bool)) = true := by
    rcases hst with rfl | rfl <;> decide
  have hstRS : ¬(¬(String.mk [st]) = "R" ∧ ¬(String.mk [st]) = "S") := by
    rcases hst with rfl | rfl
    · exact fun hcon => hcon.1 rfl
    · exact fun hcon => hcon.2 rfl
  have hmk : mkAminoAcidResidue "B2" (String.mk [st]) sc "" "G" dd = .ok
      ⟨"B2", String.mk [st], sc, "", "G", dd⟩ := by
    simp +decide [mkAminoAcidResidue, hsc2, hstc, hlenNe]
    rw [if_neg hstRS, if_pos hsc]
  have hrend : renderResidue ⟨"B2", sc, String.mk [st], "G", "", dd⟩ =
      .ok (('(' :: st :: ')' :: 'B' :: '2' :: 'h' ::
        (sc.data ++ formatDihedrals dd)).asString) := by
    unfold renderResidue
    rw [hmk]
    rfl
  refine ⟨_, hrend, ?_⟩
  have hstrip : pyStrip ('(' :: st :: ')' :: 'B' :: '2' :: 'h' ::
      (sc.data ++ formatDihedrals dd)) = '(' :: st :: ')' :: 'B' :: '2' :: 'h' ::
      (sc.data ++ formatDihedrals dd) := by
    rw [show ('(' :: st :: ')' :: 'B' :: '2' :: 'h' :: (sc.data ++ formatDihedrals dd)) =
      (['(', st, ')', 'B', '2', 'h'] ++ sc.data) ++ formatDihedrals dd from by simp]
    refine pyStrip_head_body _ _ dd '(' _ rfl (by decide) ?_
    intro c hc
    rw [List.getLast?_append_of_ne_nil _ hne] at hc
    exact upper_not_ws c (hup c (List.mem_of_mem_getLast? hc))
  have hph : parseHead ('(' :: st :: ')' :: 'B' :: '2' :: 'h' ::
      (sc.data ++ formatDihedrals dd)) =
      some (.mono st true sc.data, formatDihedrals dd) := by
    show parseHeadParen (st :: ')' :: 'B' :: '2' :: 'h' ::
      (sc.data ++ formatDihedrals dd)) = _
    rw [parseHeadParen_not2 st hne2]
    exact parseHeadMono_B st '2' true _ _ _ hgu rfl htsc
  have hsteps := parseAminoAcid_steps store _ (.mono st true sc.data)
    (formatDihedrals dd) ts dd hstrip hph hsuf hres
  rw [hsteps]
  simp only [buildDescriptor, hlenNe, Bool.false_eq_true, if_false, if_true]
  rfl

/-- Round trip of a B3 descriptor through render and re-parse. -/
theorem roundtrip_B3 (store : SSStore) (st : Char) (hst : st = 'R' ∨ st = 'S')
    (sc : String) (hsc : sc ∈ SIDECHAIN_KEYS)
    (dd : Option (List (Option ℚ))) (hdd : goodDih3 dd) :
    ∃ s, renderResidue ⟨"B3", "G", "", sc, String.mk [st], dd⟩ = .ok s ∧
      parseAminoAcid store s = .ok ⟨"B3", "G", "", sc, String.mk [st], dd⟩ := by
  obtain ⟨hne, hlen, hup⟩ := key_wf sc hsc
  have hsc2 : SIDECHAIN_KEYS.contains sc = true := List.elem_iff.mpr hsc
  have hlenNe : dihLenNe dd 3 = false := goodDih3_lenNe dd hdd
  obtain ⟨ts, hsuf, hres⟩ := parseSuffix_format3 store dd hdd
  have htsc : takeSC (sc.data ++ formatDihedrals dd) = some (sc.data, formatDihedrals dd) :=
    takeSC_prefix _ _ hlen hup (formatDihedrals_head_not_upper dd)
  have hstc : (["R", "S"].contains (String.mk [st])) = true := by
    rcases hst with rfl | rfl <;> decide
  have hne2 : ¬(st = '2') := by rcases hst with rfl | rfl <;> decide
  have hgu : (isRS st && ('3' = '2' || '3' = '3' : Bool)) = true := by
    rcases hst with rfl | rfl <;> decide
  have hstRS : ¬(¬(String.mk [st]) = "R" ∧ ¬(String.mk [st]) = "S") := by
    rcases hst with rfl | rfl
    · exact fun hcon => hcon.1 rfl
    · exact fun hcon => hcon.2 rfl
  have hmk : mkAminoAcidResidue "B3" "" "G" (String.mk [st]) sc dd = .ok
      ⟨"B3", "", "G", String.mk [st], sc, dd⟩ := by
    simp +decide [mkAminoAcidResidue, hsc2, hstc, hlenNe]
    rw [if_neg hstRS, if_pos hsc]
  have hrend : renderResidue ⟨"B3", "G", "", sc, String.mk [st], dd⟩ =
      .ok (('(' :: st :: ')' :: 'B' :: '3' :: 'h' ::
        (sc.data ++ formatDihedrals dd)).asString) := by
    unfold renderResidue
    rw [hmk]
    rfl
  refine ⟨_, hrend, ?_⟩
  have hstrip : pyStrip ('(' :: st :: ')' :: 'B' :: '3' :: 'h' ::
      (sc.data ++ formatDihedrals dd)) = '(' :: st :: ')' :: 'B' :: '3' :: 'h' ::
      (sc.data ++ formatDihedrals dd) := by
    rw [show ('(' :: st :: ')' :: 'B' :: '3' :: 'h' :: (sc.data ++ formatDihedrals dd)) =
      (['(', st, ')', 'B', '3', 'h'] ++ sc.data) ++ formatDihedrals dd from by simp]
    refine pyStrip_head_body _ _ dd '(' _ rfl (by decide) ?_
    intro c hc
    rw [List.getLast?_append_of_ne_nil _ hne] at hc
    exact upper_not_ws c (hup c (List.mem_of_mem_getLast? hc))
  have hph : parseHead ('(' :: st :: ')' :: 'B' :: '3' :: 'h' ::
      (sc.data ++ formatDihedrals dd)) =
      some (.mono st false sc.data, formatDihedrals dd) := by
    show parseHeadParen (st :: ')' :: 'B' :: '3' :: 'h' ::
      (sc.data ++ formatDihedrals dd)) = _
    rw [parseHeadParen_not2 st hne2]
    exact parseHeadMono_B st '3' false _ _ _ hgu rfl htsc
  have hsteps := parseAminoAcid_steps store _ (.mono st false sc.data)
    (formatDihedrals dd) ts dd hstrip hph hsuf hres
  rw [hsteps]
  simp only [buildDescriptor, hlenNe, Bool.false_eq_true, if_false]
  rfl

/-- Round trip of an alpha descriptor through render and re-parse. -/
theorem roundtrip_alpha (store : SSStore) (st : Char)
    (hst : st = 'R' ∨ st = 'S' ∨ st = 'L' ∨ st = 'D')
    (sc : String) (hsc : sc ∈ SIDECHAIN_KEYS)
    (dd : Option (List (Option ℚ))) (hdd : goodDih2 dd) :
    ∃ s, renderResidue ⟨"A", sc, String.mk [st], "", "", dd⟩ = .ok s ∧
      parseAminoAcid store s = .ok ⟨"A", sc, String.mk [st], "", "", dd⟩ := by
  obtain ⟨hne, hlen, hup⟩ := key_wf sc hsc
  have hlenNe : dihLenNe dd 2 = false := goodDih2_lenNe dd hdd
  obtain ⟨ts, hsuf, hres⟩ := parseSuffix_format2 store dd hdd
  have htsc : takeSC (sc.data ++ formatDihedrals dd) = some (sc.data, formatDihedrals dd) :=
    takeSC_prefix _ _ hlen hup (formatDihedrals_head_not_upper dd)
  have hstc : (["R", "S", "D", "L"].contains (String.mk [st])) = true := by
    rcases hst with rfl | rfl | rfl | rfl <;> decide
  have hne2 : ¬(st = '2') := by rcases hst with rfl | rfl | rfl | rfl <;> decide
  have hgu : isRSLD st = true := by rcases hst with rfl | rfl | rfl | rfl <;> decide
  have hmk : mkAminoAcidResidue "A" (String.mk [st]) sc "" "" dd = .ok
      ⟨"A", String.mk [st], sc, "", "", dd⟩ := by
    simp +decide [mkAminoAcidResidue, hstc, hlenNe]
    rw [if_neg (by rcases hst with rfl | rfl | rfl | rfl <;> decide), if_pos hsc]
  have hrend : renderResidue ⟨"A", sc, String.mk [st], "", "", dd⟩ =
      .ok (('(' :: st :: ')' :: 'A' :: (sc.data ++ formatDihedrals dd)).asString) := by
    unfold renderResidue
    rw [hmk]
    rfl
  refine ⟨_, hrend, ?_⟩
  have hstrip : pyStrip ('(' :: st :: ')' :: 'A' :: (sc.data ++ formatDihedrals dd)) =
      '(' :: st :: ')' :: 'A' :: (sc.data ++ formatDihedrals dd) := by
    rw [show ('(' :: st :: ')' :: 'A' :: (sc.data ++ formatDihedrals dd)) =
      (['(', st, ')', 'A'] ++ sc.data) ++ formatDihedrals dd from by simp]
    refine pyStrip_head_body _ _ dd '(' _ rfl (by decide) ?_
    intro c hc
    rw [List.getLast?_append_of_ne_nil _ hne] at hc
    exact upper_not_ws c (hup c (List.mem_of_mem_getLast? hc))
  have hph : parseHead ('(' :: st :: ')' :: 'A' :: (sc.data ++ formatDihedrals dd)) =
      some (.alpha st sc.data, formatDihedrals dd) := by
    show parseHeadParen (st :: ')' :: 'A' :: (sc.data ++ formatDihedrals dd)) = _
    rw [parseHeadParen_not2 st hne2]
    exact parseHeadMono_alpha st _ _ _ hgu htsc
  have hsteps := parseAminoAcid_steps store _ (.alpha st sc.data)
    (formatDihedrals dd) ts dd hstrip hph hsuf hres
  rw [hsteps]
  simp only [buildDescriptor, hlenNe, Bool.false_eq_true, if_false]
  rfl

/-- Round trip of a backbone-only (BA) descriptor through render and
re-parse. -/
theorem roundtrip_BA (store : SSStore)
    (dd : Option (List (Option ℚ))) (hdd : goodDih3 dd) :
    ∃ s, renderResidue ⟨"BA", "G", "", "G", "", dd⟩ = .ok s ∧
      parseAminoAcid store s = .ok ⟨"BA", "G", "", "G", "", dd⟩ := by
  have hlenNe : dihLenNe dd 3 = false := goodDih3_lenNe dd hdd
  obtain ⟨ts, hsuf, hres⟩ := parseSuffix_format3 store dd hdd
  have hmk : mkAminoAcidResidue "BA" "" "G" "" "G" dd = .ok
      ⟨"BA", "", "G", "", "G", dd⟩ := by
    simp +decide [mkAminoAcidResidue, hlenNe]
  have hrend : renderResidue ⟨"BA", "G", "", "G", "", dd⟩ =
      .ok (('B' :: 'A' :: formatDihedrals dd).asString) := by
    unfold renderResidue
    rw [hmk]
    rfl
  refine ⟨_, hrend, ?_⟩
  have hstrip : pyStrip ('B' :: 'A' :: formatDihedrals dd) =
      'B' :: 'A' :: formatDihedrals dd := by
    rw [show ('B' :: 'A' :: formatDihedrals dd) =
      ((['B', 'A'] ++ []) ++ formatDihedrals dd) from by simp]
    refine pyStrip_head_body _ _ dd 'B' _ rfl (by decide) ?_
    intro c hc
    cases hc
    decide
  have hph : parseHead ('B' :: 'A' :: formatDihedrals dd) =
      some (.bare, formatDihedrals dd) := rfl
  have hsteps := parseAminoAcid_steps store _ .bare
    (formatDihedrals dd) ts dd hstrip hph hsuf hres
  rw [hsteps]
  simp only [buildDescriptor, hlenNe, Bool.false_eq_true, if_false]

/-- Round trip of a B23 descriptor through render and re-parse. -/
theorem roundtrip_B23 (store : SSStore) (s2 : Char) (hs2 : s2 = 'R' ∨ s2 = 'S')
    (s3 : Char) (hs3 : s3 = 'R' ∨ s3 = 'S')
    (sc2 : String) (hsc2m : sc2 ∈ SIDECHAIN_KEYS)
    (sc3 : String) (hsc3m : sc3 ∈ SIDECHAIN_KEYS)
    (dd : Option (List (Option ℚ))) (hdd : goodDih3 dd) :
    ∃ s, renderResidue ⟨"B23", sc2, String.mk [s2], sc3, String.mk [s3], dd⟩ = .ok s ∧
      parseAminoAcid store s = .ok ⟨"B23", sc2, String.mk [s2], sc3, String.mk [s3], dd⟩ := by
  obtain ⟨hne2, hlen2, hup2⟩ := key_wf sc2 hsc2m
  obtain ⟨hne3, hlen3, hup3⟩ := key_wf sc3 hsc3m
  have hlenNe : dihLenNe dd 3 = false := goodDih3_lenNe dd hdd
  obtain ⟨ts, hsuf, hres⟩ := parseSuffix_format3 store dd hdd
  have htsc3 : takeSC (sc3.data ++ (')' :: formatDihedrals dd)) =
      some (sc3.data, ')' :: formatDihedrals dd) :=
    takeSC_prefix _ _ hlen3 hup3 (by
      intro c hc
      injection hc with hc
      subst hc
      decide)
  have htsc2 : takeSC (sc2.data ++ ('3' :: (sc3.data ++ (')' :: formatDihedrals dd)))) =
      some (sc2.data, '3' :: (sc3.data ++ (')' :: formatDihedrals dd))) :=
    takeSC_prefix _ _ hlen2 hup2 (by
      intro c hc
      injection hc with hc
      subst hc
      decide)
  have hmk : mkAminoAcidResidue "B23" (String.mk [s2]) sc2 (String.mk [s3]) sc3 dd = .ok
      ⟨"B23", String.mk [s2], sc2, String.mk [s3], sc3, dd⟩ := by
    simp +decide [mkAminoAcidResidue, hlenNe]
    rw [if_neg (by rcases hs2 with rfl | rfl <;> decide),
      if_neg (by rcases hs3 with rfl | rfl <;> decide),
      if_pos hsc2m, if_pos hsc3m]
  have hrend : renderResidue ⟨"B23", sc2, String.mk [s2], sc3, String.mk [s3], dd⟩ =
      .ok (('(' :: '2' :: s2 :: '3' :: s3 :: ')' :: 'B' :: '2' :: '3' :: 'h' :: '(' :: '2' ::
        (sc2.data ++ ('3' :: (sc3.data ++ (')' :: formatDihedrals dd))))).asString) := by
    unfold renderResidue
    rw [hmk]
    rfl
  refine ⟨_, hrend, ?_⟩
  have hstrip : pyStrip ('(' :: '2' :: s2 :: '3' :: s3 :: ')' :: 'B' :: '2' :: '3' :: 'h' ::
      '(' :: '2' :: (sc2.data ++ ('3' :: (sc3.data ++ (')' :: formatDihedrals dd))))) =
      '(' :: '2' :: s2 :: '3' :: s3 :: ')' :: 'B' :: '2' :: '3' :: 'h' :: '(' :: '2' ::
      (sc2.data ++ ('3' :: (sc3.data ++ (')' :: formatDihedrals dd)))) := by
    rw [show ('(' :: '2' :: s2 :: '3' :: s3 :: ')' :: 'B' :: '2' :: '3' :: 'h' :: '(' :: '2' ::
      (sc2.data ++ ('3' :: (sc3.data ++ (')' :: formatDihedrals dd))))) =
      ((['(', '2', s2, '3', s3, ')', 'B', '2', '3', 'h', '(', '2'] ++
        (sc2.data ++ ('3' :: (sc3.data ++ [')'])))) ++ formatDihedrals dd) from by simp]
    refine pyStrip_head_body _ _ dd '(' _ rfl (by decide) ?_
    intro c hc
    rw [List.getLast?_append_of_ne_nil _ (by simp), show (sc2.data ++ ('3' ::
      (sc3.data ++ [')']))) = ((sc2.data ++ ('3' :: sc3.data)) ++ [')']) from by simp,
      List.getLast?_concat] at hc
    injection hc with hc
    subst hc
    decide
  have hph : parseHead ('(' :: '2' :: s2 :: '3' :: s3 :: ')' :: 'B' :: '2' :: '3' :: 'h' ::
      '(' :: '2' :: (sc2.data ++ ('3' :: (sc3.data ++ (')' :: formatDihedrals dd))))) =
      some (.beta23 s2 s3 sc2.data sc3.data, formatDihedrals dd) := by
    rcases hs2 with rfl | rfl <;> rcases hs3 with rfl | rfl <;>
      exact parseHeadCaps_beta23 _ _ _ _ _ _ _ htsc2 htsc3
  have hsteps := parseAminoAcid_steps store _ (.beta23 s2 s3 sc2.data sc3.data)
    (formatDihedrals dd) ts dd hstrip hph hsuf hres
  rw [hsteps]
  simp only [buildDescriptor, hlenNe, Bool.false_eq_true, if_false]
  rfl

/-- Round trip of an ACPC descriptor through render and re-parse. -/
theorem roundtrip_ACPC (store : SSStore) (s2 : Char) (hs2 : s2 = 'R' ∨ s2 = 'S')
    (s3 : Char) (hs3 : s3 = 'R' ∨ s3 = 'S')
    (dd : Option (List (Option ℚ))) (hdd : goodDih3 dd) :
    ∃ s, renderResidue ⟨"ACPC", "", String.mk [s2], "", String.mk [s3], dd⟩ = .ok s ∧
      parseAminoAcid store s = .ok ⟨"ACPC", "", String.mk [s2], "", String.mk [s3], dd⟩ := by
  have hlenNe : dihLenNe dd 3 = false := goodDih3_lenNe dd hdd
  obtain ⟨ts, hsuf, hres⟩ := parseSuffix_format3 store dd hdd
  have hmk : mkAminoAcidResidue "ACPC" (String.mk [s2]) "" (String.mk [s3]) "" dd = .ok
      ⟨"ACPC", String.mk [s2], "", String.mk [s3], "", dd⟩ := by
    simp +decide [mkAminoAcidResidue, hlenNe]
    rw [if_neg (by rcases hs2 with rfl | rfl <;> decide),
      if_neg (by rcases hs3 with rfl | rfl <;> decide)]
  have hrend : renderResidue ⟨"ACPC", "", String.mk [s2], "", String.mk [s3], dd⟩ =
      .ok (('(' :: '2' :: s2 :: '3' :: s3 :: ')' :: 'A' :: 'C' :: 'P' :: 'C' ::
        formatDihedrals dd).asString) := by
    unfold renderResidue
    rw [hmk]
    rfl
  refine ⟨_, hrend, ?_⟩
  have hstrip : pyStrip ('(' :: '2' :: s2 :: '3' :: s3 :: ')' :: 'A' :: 'C' :: 'P' :: 'C' ::
      formatDihedrals dd) = '(' :: '2' :: s2 :: '3' :: s3 :: ')' :: 'A' :: 'C' :: 'P' :: 'C' ::
      formatDihedrals dd := by
    rw [show ('(' :: '2' :: s2 :: '3' :: s3 :: ')' :: 'A' :: 'C' :: 'P' :: 'C' ::
      formatDihedrals dd) = ((['(', '2', s2, '3', s3, ')', 'A', 'C', 'P', 'C'] ++ []) ++
      formatDihedrals dd) from by simp]
    refine pyStrip_head_body _ _ dd '(' _ rfl (by decide) ?_
    intro c hc
    have hc2 : some 'C' = some c := hc
    injection hc2 with hc2
    subst hc2
    decide
  have hph : parseHead ('(' :: '2' :: s2 :: '3' :: s3 :: ')' :: 'A' :: 'C' :: 'P' :: 'C' ::
      formatDihedrals dd) = some (.acpc s2 s3, formatDihedrals dd) := by
    rcases hs2 with rfl | rfl <;> rcases hs3 with rfl | rfl <;> rfl
  have hsteps := parseAminoAcid_steps store _ (.acpc s2 s3)
    (formatDihedrals dd) ts dd hstrip hph hsuf hres
  rw [hsteps]
  rfl

/-- Round trip of an ACHC descriptor through render and re-parse. -/
theorem roundtrip_ACHC (store : SSStore) (s2 : Char) (hs2 : s2 = 'R' ∨ s2 = 'S')
    (s3 : Char) (hs3 : s3 = 'R' ∨ s3 = 'S')
    (dd : Option (List (Option ℚ))) (hdd : goodDih3 dd) :
    ∃ s, renderResidue ⟨"ACHC", "", String.mk [s2], "", String.mk [s3], dd⟩ = .ok s ∧
      parseAminoAcid store s = .ok ⟨"ACHC", "", String.mk [s2], "", String.mk [s3], dd⟩ := by
  have hlenNe : dihLenNe dd 3 = false := goodDih3_lenNe dd hdd
  obtain ⟨ts, hsuf, hres⟩ := parseSuffix_format3 store dd hdd
  have hmk : mkAminoAcidResidue "ACHC" (String.mk [s2]) "" (String.mk [s3]) "" dd = .ok
      ⟨"ACHC", String.mk [s2], "", String.mk [s3], "", dd⟩ := by
    simp +decide [mkAminoAcidResidue, hlenNe]
    rw [if_neg (by rcases hs2 with rfl | rfl <;> decide),
      if_neg (by rcases hs3 with rfl | rfl <;> decide)]
  have hrend : renderResidue ⟨"ACHC", "", String.mk [s2], "", String.mk [s3], dd⟩ =
      .ok (('(' :: '2' :: s2 :: '3' :: s3 :: ')' :: 'A' :: 'C' :: 'H' :: 'C' ::
        formatDihedrals dd).asString) := by
    unfold renderResidue
    rw [hmk]
    rfl
  refine ⟨_, hrend, ?_⟩
  have hstrip : pyStrip ('(' :: '2' :: s2 :: '3' :: s3 :: ')' :: 'A' :: 'C' :: 'H' :: 'C' ::
      formatDihedrals dd) = '(' :: '2' :: s2 :: '3' :: s3 :: ')' :: 'A' :: 'C' :: 'H' :: 'C' ::
      formatDihedrals dd := by
    rw [show ('(' :: '2' :: s2 :: '3' :: s3 :: ')' :: 'A' :: 'C' :: 'H' :: 'C' ::
      formatDihedrals dd) = ((['(', '2', s2, '3', s3, ')', 'A', 'C', 'H', 'C'] ++ []) ++
      formatDihedrals dd) from by simp]
    refine pyStrip_head_body _ _ dd '(' _ rfl (by decide) ?_
    intro c hc
    have hc2 : some 'C' = some c := hc
    injection hc2 with hc2
    subst hc2
    decide
  have hph : parseHead ('(' :: '2' :: s2 :: '3' :: s3 :: ')' :: 'A' :: 'C' :: 'H' :: 'C' ::
      formatDihedrals dd) = some (.achc s2 s3, formatDihedrals dd) := by
    rcases hs2 with rfl | rfl <;> rcases hs3 with rfl | rfl <;> rfl
  have hsteps := parseAminoAcid_steps store _ (.achc s2 s3)
    (formatDihedrals dd) ts dd hstrip hph hsuf hres
  rw [hsteps]
  rfl

/-- Dihedral data that renders faithfully: every entry present (database
entries of alpha type carry a `None` middle angle, which `__str__` silently
drops), every angle exactly representable with the six fractional digits
`'{:f}'` prints, and exactly three entries for the cyclic ACPC/ACHC kinds
(whose dihedral count the parser never checks). -/
def dihedralsWf (d : ResidueDescriptor) : Prop :=
  match d.dihedrals with
  | none => True
  | some l => (∀ x ∈ l, ∃ q : ℚ, x = some q ∧ q.den ∣ 1000000) ∧
      ((d.kind = "ACPC" ∨ d.kind = "ACHC") → l.length = 3)

/-- The side-chain codes the descriptor actually uses are known to the
builder's `SIDECHAINS` table. -/
def sidechainsKnown (d : ResidueDescriptor) : Prop :=
  (d.kind ∈ (["B2", "B23", "A"] : List String) → d.sidechain2 ∈ SIDECHAIN_KEYS) ∧
  (d.kind ∈ (["B3", "B23"] : List String) → d.sidechain3 ∈ SIDECHAIN_KEYS)

/-- A three-entry list of present representable angles, in explicit form. -/
theorem list3_all_some (l : List (Option ℚ)) (h3 : l.length = 3)
    (h : ∀ x ∈ l, ∃ q : ℚ, x = some q ∧ q.den ∣ 1000000) :
    ∃ q1 q2 q3 : ℚ, l = [some q1, some q2, some q3] ∧
      q1.den ∣ 1000000 ∧ q2.den ∣ 1000000 ∧ q3.den ∣ 1000000 := by
  rcases l with _ | ⟨a, _ | ⟨b, _ | ⟨c, _ | ⟨e, t⟩⟩⟩⟩
  · exact absurd h3 (by simp)
  · exact absurd h3 (by simp)
  · exact absurd h3 (by simp)
  · obtain ⟨q1, rfl, hq1⟩ := h a (by simp)
    obtain ⟨q2, rfl, hq2⟩ := h b (by simp)
    obtain ⟨q3, rfl, hq3⟩ := h c (by simp)
    exact ⟨q1, q2, q3, rfl, hq1, hq2, hq3⟩
  · exact absurd h3 (by simp)

/-- A two-entry list of present representable angles, in explicit form. -/
theorem list2_all_some (l : List (Option ℚ)) (h2 : l.length = 2)
    (h : ∀ x ∈ l, ∃ q : ℚ, x = some q ∧ q.den ∣ 1000000) :
    ∃ q1 q2 : ℚ, l = [some q1, some q2] ∧ q1.den ∣ 1000000 ∧ q2.den ∣ 1000000 := by
  rcases l with _ | ⟨a, _ | ⟨b, _ | ⟨c, t⟩⟩⟩
  · exact absurd h2 (by simp)
  · exact absurd h2 (by simp)
  · obtain ⟨q1, rfl, hq1⟩ := h a (by simp)
    obtain ⟨q2, rfl, hq2⟩ := h b (by simp)
    exact ⟨q1, q2, rfl, hq1, hq2⟩
  · exact absurd h2 (by simp)

/-- Assemble a good three-angle dihedral field from shape and entry
facts. -/
theorem goodDih3_of (dd : Option (List (Option ℚ))) (hlen : dihNoneOrLen dd 3)
    (hall : ∀ l, dd = some l → ∀ x ∈ l, ∃ q : ℚ, x = some q ∧ q.den ∣ 1000000) :
    goodDih3 dd := by
  rcases hlen with rfl | ⟨l, rfl, hl⟩
  · exact Or.inl rfl
  · obtain ⟨q1, q2, q3, rfl, h⟩ := list3_all_some l hl (hall l rfl)
    exact Or.inr ⟨q1, q2, q3, rfl, h⟩

/-- Assemble a good two-angle dihedral field from shape and entry facts. -/
theorem goodDih2_of (dd : Option (List (Option ℚ))) (hlen : dihNoneOrLen dd 2)
    (hall : ∀ l, dd = some l → ∀ x ∈ l, ∃ q : ℚ, x = some q ∧ q.den ∣ 1000000) :
    goodDih2 dd := by
  rcases hlen with rfl | ⟨l, rfl, hl⟩
  · exact Or.inl rfl
  · obtain ⟨q1, q2, rfl, h⟩ := list2_all_some l hl (hall l rfl)
    exact Or.inr ⟨q1, q2, rfl, h⟩

/-- Claim C6 (amended): for every token the parser accepts whose descriptor
names only known side-chain codes and whose dihedral data is fully present,
exactly representable with six fractional digits, and of length three for
the cyclic ACPC/ACHC kinds, rendering the descriptor with
`AminoAcidResidue.__str__` succeeds and re-parsing the rendered token
recovers exactly the same descriptor. -/
theorem parse_render_roundtrip (store : SSStore) (T : String) (d : ResidueDescriptor)
    (hparse : parseAminoAcid store T = .ok d)
    (hdih : dihedralsWf d) (hsck : sidechainsKnown d) :
    ∃ s, renderResidue d = .ok s ∧ parseAminoAcid store s = .ok d := by
  have hshape := parse_shape store T d hparse
  obtain ⟨k, c2, s2, c3, s3, dds⟩ := d
  obtain ⟨hsck2, hsck3⟩ := hsck
  rcases hshape with ⟨hk, h1, h2, h3, h4, hlen⟩ | ⟨hk, hst, h3, h4, hlen⟩ |
    ⟨hk, hst, h3, h4, hlen⟩ | ⟨hk, h1, h2, hst, hlen⟩ |
    ⟨hk, hst2, hst3, hlen⟩ | ⟨hk, h1, h2, h3, h4, h5⟩ | ⟨hk, h1, hst2, h3, hst3⟩
  · -- BA
    subst hk h1 h2 h3 h4
    have hall : ∀ l, dds = some l → ∀ x ∈ l, ∃ q : ℚ, x = some q ∧ q.den ∣ 1000000 := by
      intro l hl
      rw [hl] at hdih
      exact hdih.1
    exact roundtrip_BA store dds (goodDih3_of dds hlen hall)
  · -- A
    subst hk h3 h4
    obtain ⟨st, hstd, rfl⟩ := hst
    have hall : ∀ l, dds = some l → ∀ x ∈ l, ∃ q : ℚ, x = some q ∧ q.den ∣ 1000000 := by
      intro l hl
      rw [hl] at hdih
      exact hdih.1
    exact roundtrip_alpha store st hstd c2
      (hsck2 (show ("A" : String) ∈ ["B2", "B23", "A"] from by decide)) dds
      (goodDih2_of dds hlen hall)
  · -- B2
    subst hk h3 h4
    obtain ⟨st, hstd, rfl⟩ := hst
    have hall : ∀ l, dds = some l → ∀ x ∈ l, ∃ q : ℚ, x = some q ∧ q.den ∣ 1000000 := by
      intro l hl
      rw [hl] at hdih
      exact hdih.1
    exact roundtrip_B2 store st hstd c2
      (hsck2 (show ("B2" : String) ∈ ["B2", "B23", "A"] from by decide)) dds
      (goodDih3_of dds hlen hall)
  · -- B3
    subst hk h1 h2
    obtain ⟨st, hstd, rfl⟩ := hst
    have hall : ∀ l, dds = some l → ∀ x ∈ l, ∃ q : ℚ, x = some q ∧ q.den ∣ 1000000 := by
      intro l hl
      rw [hl] at hdih
      exact hdih.1
    exact roundtrip_B3 store st hstd c3
      (hsck3 (show ("B3" : String) ∈ ["B3", "B23"] from by decide)) dds
      (goodDih3_of dds hlen hall)
  · -- B23
    subst hk
    obtain ⟨sa, hsa, rfl⟩ := hst2
    obtain ⟨sb, hsb, rfl⟩ := hst3
    have hall : ∀ l, dds = some l → ∀ x ∈ l, ∃ q : ℚ, x = some q ∧ q.den ∣ 1000000 := by
      intro l hl
      rw [hl] at hdih
      exact hdih.1
    exact roundtrip_B23 store sa hsa sb hsb c2
      (hsck2 (show ("B23" : String) ∈ ["B2", "B23", "A"] from by decide)) c3
      (hsck3 (show ("B23" : String) ∈ ["B3", "B23"] from by decide))
      dds (goodDih3_of dds hlen hall)
  · -- capping groups
    subst h1 h2 h3 h4 h5
    rcases hk with rfl | rfl | rfl
    · exact ⟨"ACE", rfl, rfl⟩
    · exact ⟨"NME", rfl, rfl⟩
    · exact ⟨"BUT", rfl, rfl⟩
  · -- ACPC / ACHC
    subst h1 h3
    obtain ⟨sa, hsa, rfl⟩ := hst2
    obtain ⟨sb, hsb, rfl⟩ := hst3
    rcases hk with rfl | rfl
    · have hlen : dihNoneOrLen dds 3 := by
        cases dds with
        | none => exact Or.inl rfl
        | some l => exact Or.inr ⟨l, rfl, hdih.2 (Or.inl rfl)⟩
      have hall : ∀ l, dds = some l → ∀ x ∈ l, ∃ q : ℚ, x = some q ∧ q.den ∣ 1000000 := by
        intro l hl
        rw [hl] at hdih
        exact hdih.1
      exact roundtrip_ACPC store sa hsa sb hsb dds (goodDih3_of dds hlen hall)
    · have hlen : dihNoneOrLen dds 3 := by
        cases dds with
        | none => exact Or.inl rfl
        | some l => exact Or.inr ⟨l, rfl, hdih.2 (Or.inr rfl)⟩
      have hall : ∀ l, dds = some l → ∀ x ∈ l, ∃ q : ℚ, x = some q ∧ q.den ∣ 1000000 := by
        intro l hl
        rw [hl] at hdih
        exact hdih.1
      exact roundtrip_ACHC store sa hsa sb hsb dds (goodDih3_of dds hlen hall)

/-- Witness for the round trip: the example B3 token of the spec parses,
satisfies both side conditions, and renders to a token the parser maps back
to the same descriptor. -/
theorem parse_render_roundtrip_witness :
    parseAminoAcid DEFAULT_HELIXTYPES "(S)B3hV[-140.3 66.5 -136.8]" =
      .ok ⟨"B3", "G", "", "V", "S",
        some [some (decimal (-1403) 1), some (decimal 665 1), some (decimal (-1368) 1)]⟩ ∧
    dihedralsWf ⟨"B3", "G", "", "V", "S",
        some [some (decimal (-1403) 1), some (decimal 665 1), some (decimal (-1368) 1)]⟩ ∧
    sidechainsKnown ⟨"B3", "G", "", "V", "S",
        some [some (decimal (-1403) 1), some (decimal 665 1), some (decimal (-1368) 1)]⟩ ∧
    ∃ s, renderResidue ⟨"B3", "G", "", "V", "S",
        some [some (decimal (-1403) 1), some (decimal 665 1), some (decimal (-1368) 1)]⟩ =
          .ok s ∧
      parseAminoAcid DEFAULT_HELIXTYPES s =
        .ok ⟨"B3", "G", "", "V", "S",
          some [some (decimal (-1403) 1), some (decimal 665 1), some (decimal (-1368) 1)]⟩ := by
  have hparse : parseAminoAcid DEFAULT_HELIXTYPES "(S)B3hV[-140.3 66.5 -136.8]" =
      .ok ⟨"B3", "G", "", "V", "S",
        some [some (decimal (-1403) 1), some (decimal 665 1), some (decimal (-1368) 1)]⟩ :=
    rfl
  have hdih : dihedralsWf ⟨"B3", "G", "", "V", "S",
      some [some (decimal (-1403) 1), some (decimal 665 1), some (decimal (-1368) 1)]⟩ := by
    refine ⟨?_, fun hcon => rfl⟩
    intro x hx
    simp only [List.mem_cons, List.not_mem_nil, or_false] at hx
    rcases hx with rfl | rfl | rfl
    · exact ⟨decimal (-1403) 1, rfl, by decide⟩
    · exact ⟨decimal 665 1, rfl, by decide⟩
    · exact ⟨decimal (-1368) 1, rfl, by decide⟩
  have hsck : sidechainsKnown ⟨"B3", "G", "", "V", "S",
      some [some (decimal (-1403) 1), some (decimal 665 1), some (decimal (-1368) 1)]⟩ :=
    ⟨fun h => by decide, fun h => by decide⟩
  exact ⟨hparse, hdih, hsck, parse_render_roundtrip DEFAULT_HELIXTYPES
    "(S)B3hV[-140.3 66.5 -136.8]" _ hparse hdih hsck⟩

end PmlBeta
